import Mathlib

/-!
Shallow embedding of the 2D pattern-matching engine (repository
kaya3/pattern-match-2d), translated from the current source variant
(src/unnamed/part_002 compiled bundle and src/unnamed/part_009 matcher).

The TypeScript code is imperative; here every class is a structure and every
mutating method is a function returning the updated structure.  JavaScript
exceptions are modelled with `Except`, where the error payload carries the
error kind together with the state of the object at the moment of the throw
(mutations performed before the throw are retained, as in JavaScript).
Loops whose bounds are not structural are given explicit fuel; the functions
return `none`/failure when the fuel runs out, and the theorems are stated on
successful runs.
-/

namespace PM2D

/-! ## ISet: bitset of natural numbers (src/unnamed/part_002, `ISet` namespace)

The source stores a `Uint32Array` of bit words over a fixed domain.  We model
the set as its domain size together with the list of member elements; the
enumeration order of `forEach`/`toArray` (ascending 32-bit word, descending
bit inside each word) is reproduced by `ISet.toList`, and the `bigint` key
used by `toBigInt`/`arrayToBigInt` is modelled by the canonical ascending
element list, which determines and is determined by the bigint value. -/

structure ISet where
  domain : Nat
  elems : List Nat
  deriving Repr

namespace ISet

/-- Number of 32-bit words backing a set of the given domain size:
`((domainSize - 1) >> 5) + 1`. -/
def words (domainSize : Nat) : Nat := (domainSize - 1) / 32 + 1

/-- `ISet.empty(domainSize)`. -/
def empty (domainSize : Nat) : ISet := ⟨domainSize, []⟩

/-- `ISet.has(set, x)`. -/
def has (s : ISet) (x : Nat) : Bool := s.elems.contains x

/-- `ISet.add(set, x)`: idempotent insertion (a bitset `|=`). -/
def add (s : ISet) (x : Nat) : ISet :=
  if s.has x then s else ⟨s.domain, x :: s.elems⟩

/-- `ISet.full(domainSize)`. -/
def full (domainSize : Nat) : ISet := ⟨domainSize, List.range domainSize⟩

/-- `ISet.of(domainSize, xs)`. -/
def of (domainSize : Nat) (xs : List Nat) : ISet :=
  xs.foldl add (empty domainSize)

/-- `ISet.addAll(a, b)`: wordwise `a[i] |= b[i]` (the source throws when `b`
has more words than `a`; in every call site both sets share one domain). -/
def addAll (a b : ISet) : ISet := b.elems.foldl add a

/-- `ISet.size(set)`: popcount. -/
def size (s : ISet) : Nat := ((List.range (32 * words s.domain)).filter s.has).length

/-- The enumeration order of `ISet.forEach`/`ISet.toArray`: words in
ascending order and, inside each word, bits from the highest (`31 - clz32`)
down to the lowest. -/
def toList (s : ISet) : List Nat :=
  ((List.range (words s.domain)).map (fun w =>
    (((List.range 32).reverse).map (fun b => 32 * w + b)).filter s.has)).flatten

/-- Canonical key of a set, standing in for `ISet.toBigInt`: the ascending
list of members.  Two sets get equal keys exactly when the bigints are
equal, i.e. when they hold the same elements. -/
def key (s : ISet) : List Nat :=
  (List.range (32 * words s.domain)).filter s.has

/-- Canonical key of an array of numbers, standing in for
`ISet.arrayToBigInt` (which builds a bitset over `max + 1` and converts it):
the ascending list of distinct members. -/
def arrayKey (xs : List Nat) : List Nat :=
  let domainSize := xs.foldl (fun d x => max d (x + 1)) 0
  (List.range (32 * words domainSize)).filter (fun x => xs.contains x)

end ISet

/-! ## IDMap (src/unnamed/part_002, `IDMap` class) -/

structure IDMap (α : Type) (κ : Type) where
  keyFunc : α → κ
  arr : List α

namespace IDMap

variable {α κ : Type} [DecidableEq κ]

def empty' (keyFunc : α → κ) : IDMap α κ := ⟨keyFunc, []⟩

def size (m : IDMap α κ) : Nat := m.arr.length

/-- `ids.get(key)`: position of the element with the given key, if any. -/
def findKey (m : IDMap α κ) (k : κ) : Option Nat :=
  m.arr.findIdx? (fun y => m.keyFunc y = k)

/-- `getOrCreateID(x)`: returns the updated map and the ID. -/
def getOrCreateID (m : IDMap α κ) (x : α) : IDMap α κ × Nat :=
  match m.findKey (m.keyFunc x) with
  | some id => (m, id)
  | none => (⟨m.keyFunc, m.arr ++ [x]⟩, m.arr.length)

/-- `has(x)`. -/
def has (m : IDMap α κ) (x : α) : Bool := (m.findKey (m.keyFunc x)).isSome

/-- `getID(x)`: `none` models the `UnknownKey` throw. -/
def getID (m : IDMap α κ) (x : α) : Option Nat := m.findKey (m.keyFunc x)

/-- `getByID(id)`: `none` models the range-check throw. -/
def getByID (m : IDMap α κ) (id : Nat) : Option α := m.arr.get? id

/-- `ofWithKey(iterable, keyFunc)`. -/
def ofWithKey (xs : List α) (keyFunc : α → κ) : IDMap α κ :=
  xs.foldl (fun m x => (m.getOrCreateID x).1) (empty' keyFunc)

end IDMap

/-! ## Regex AST (src/unnamed/part_002, `Regex` namespace; accept labels are
already dense numbers in the current variant) -/

inductive Regex where
  | letters (letterIDs : List Nat)
  | wildcard
  | concat (children : List Regex)
  | union (children : List Regex)
  | kleeneStar (child : Regex)
  | accept (acceptID : Nat)
  deriving Repr

/-! ## NFA (src/unnamed/part_002, `NFA` class) -/

structure NFANode where
  epsilons : List Nat
  letters : List Nat
  /-- `-1` is the placeholder used by `makeNode` when no target is given;
  it is only ever read when `letters` is nonempty, in which case the node
  was created with an explicit target. -/
  nextID : Int
  acceptSet : List Nat
  deriving Repr

structure NFABuilder where
  alphabetSize : Nat
  nodes : List NFANode

namespace NFABuilder

/-- `makeNode(epsilons, letters, nextID)`. -/
def makeNode (b : NFABuilder) (epsilons : List Nat) (letters : List Nat)
    (nextID : Int) : NFABuilder × Nat :=
  (⟨b.alphabetSize, b.nodes ++ [⟨epsilons, letters, nextID, []⟩]⟩, b.nodes.length)

/-- `makeNode(epsilons)` (the one-argument overload). -/
def makeNode0 (b : NFABuilder) (epsilons : List Nat) : NFABuilder × Nat :=
  b.makeNode epsilons [] (-1)

/-- `this.nodes[childOutID].epsilons.push(childInID)`. -/
def pushEpsilon (b : NFABuilder) (id eps : Nat) : NFABuilder :=
  match b.nodes.get? id with
  | none => b
  | some n => ⟨b.alphabetSize, b.nodes.set id ⟨n.epsilons ++ [eps], n.letters, n.nextID, n.acceptSet⟩⟩

/-- `node.acceptSet.push(regex.accept)`. -/
def pushAccept (b : NFABuilder) (id acceptID : Nat) : NFABuilder :=
  match b.nodes.get? id with
  | none => b
  | some n => ⟨b.alphabetSize, b.nodes.set id ⟨n.epsilons, n.letters, n.nextID, n.acceptSet ++ [acceptID]⟩⟩

end NFABuilder

mutual

/-- `NFA.makeFromRegex(regex, outID)`. -/
def makeFromRegex (b : NFABuilder) (r : Regex) (outID : Nat) : NFABuilder × Nat :=
  match r with
  | .letters ls => b.makeNode [] ls (Int.ofNat outID)
  | .wildcard => b.makeNode [] (List.range b.alphabetSize) (Int.ofNat outID)
  | .concat cs => makeFromRegexConcat b cs outID
  | .union cs =>
      let (b, epsilons) := makeFromRegexUnion b cs outID
      b.makeNode0 epsilons
  | .kleeneStar c =>
      let (b, childOutID) := b.makeNode0 [outID]
      let (b, childInID) := makeFromRegex b c childOutID
      let b := b.pushEpsilon childOutID childInID
      b.makeNode0 [childInID, outID]
  | .accept k => (b.pushAccept outID k, outID)

/-- The `CONCAT` case: children threaded back-to-front. -/
def makeFromRegexConcat (b : NFABuilder) (cs : List Regex) (outID : Nat) :
    NFABuilder × Nat :=
  match cs with
  | [] => (b, outID)
  | c :: rest =>
      let (b, outID) := makeFromRegexConcat b rest outID
      makeFromRegex b c outID

/-- The `UNION` case: `children.map(child => makeFromRegex(child, makeNode([outID])))`. -/
def makeFromRegexUnion (b : NFABuilder) (cs : List Regex) (outID : Nat) :
    NFABuilder × List Nat :=
  match cs with
  | [] => (b, [])
  | c :: rest =>
      let (b, mid) := b.makeNode0 [outID]
      let (b, inID) := makeFromRegex b c mid
      let (b, restIDs) := makeFromRegexUnion b rest outID
      (b, inID :: restIDs)

end

structure NFA where
  alphabetSize : Nat
  acceptCount : Nat
  nodes : List NFANode
  startID : Nat

/-- `new NFA(alphabetSize, acceptCount, regex)`: node 0 is the shared out
node, then the regex is translated. -/
def NFA.make (alphabetSize acceptCount : Nat) (regex : Regex) : NFA :=
  let b0 : NFABuilder := ⟨alphabetSize, []⟩
  let (b, out0) := b0.makeNode0 []
  let (b, startID) := makeFromRegex b regex out0
  ⟨alphabetSize, acceptCount, b.nodes, startID⟩

/-! ## Subset construction (src/unnamed/part_002, `NFA.toDFA`) -/

instance : Inhabited NFANode := ⟨⟨[], [], -1, []⟩⟩

/-- The body of the epsilon-closure DFS in `getNodeID`.  The stack is a list
whose head is the top (JavaScript pushes/pops at the array's end).  The fuel
is an upper bound on the number of pops: each pop removes one entry, and an
entry is pushed only when a new element enters the set, which happens at most
`nodes.length` times. -/
def closureLoop (nodes : List NFANode) : Nat → List Nat → ISet → ISet
  | 0, _, s => s
  | _ + 1, [], s => s
  | fuel + 1, id :: stack, s =>
      let node := nodes.getD id default
      let r := node.epsilons.foldl
        (fun (r : ISet × List Nat) eps =>
          if r.1.has eps then r else (r.1.add eps, eps :: r.2))
        (s, stack)
      closureLoop nodes fuel r.2 r.1

/-- Epsilon closure, as performed at the start of `getNodeID`:
`const stack = ISet.toArray(nfaState); while (stack.length > 0) ...`. -/
def closure (nodes : List NFANode) (nfaState : ISet) : ISet :=
  let stack := nfaState.toList.reverse
  closureLoop nodes (stack.length + nodes.length + 1) stack nfaState

/-- `getNodeID(nfaState)`: epsilon-close, then intern in `nfaStates`. -/
def getNodeID (nodes : List NFANode) (m : IDMap ISet (List Nat)) (nfaState : ISet) :
    IDMap ISet (List Nat) × Nat :=
  m.getOrCreateID (closure nodes nfaState)

structure DFANode where
  transitions : List Nat
  acceptSetID : Nat
  acceptIDs : List Nat
  deriving Repr

instance : Inhabited DFANode := ⟨⟨[], 0, []⟩⟩

structure DFA where
  alphabetSize : Nat
  acceptCount : Nat
  acceptSetMap : IDMap (List Nat) (List Nat)
  nodes : List DFANode

/-- One iteration of the `for (let nfaStateID = 0; ...)` loop of `toDFA`:
computes the transition sets and accept IDs of DFA state `i` (in
`ISet.forEach` order), interns the successor states, and appends the node. -/
def toDFAStep (nfa : NFA) (i : Nat) (nfaStates : IDMap ISet (List Nat))
    (acceptSetMap : IDMap (List Nat) (List Nat)) (dfaNodes : List DFANode) :
    IDMap ISet (List Nat) × IDMap (List Nat) (List Nat) × List DFANode :=
  let s := (nfaStates.getByID i).getD (ISet.empty 0)
  let init : List ISet × List Nat :=
    ((List.range nfa.alphabetSize).map (fun _ => ISet.empty nfa.nodes.length), [])
  let ta := s.toList.foldl
    (fun (ta : List ISet × List Nat) nfaNodeID =>
      let nfaNode := nfa.nodes.getD nfaNodeID default
      let ts := nfaNode.letters.foldl
        (fun ts letterID =>
          ts.set letterID ((ts.getD letterID (ISet.empty 0)).add nfaNode.nextID.toNat))
        ta.1
      (ts, ta.2 ++ nfaNode.acceptSet))
    init
  let tr := ta.1.foldl
    (fun (tr : IDMap ISet (List Nat) × List Nat) t =>
      let r := getNodeID nfa.nodes tr.1 t
      (r.1, tr.2 ++ [r.2]))
    (nfaStates, [])
  let am := acceptSetMap.getOrCreateID ta.2
  (tr.1, am.1, dfaNodes ++ [⟨tr.2, am.2, ta.2⟩])

/-- The main loop of `toDFA`, with fuel (the loop adds states while running;
the number of DFA states is at most `2 ^ nodes.length`). -/
def toDFALoop (nfa : NFA) : Nat → Nat → IDMap ISet (List Nat) →
    IDMap (List Nat) (List Nat) → List DFANode → Option DFA
  | 0, _, _, _, _ => none
  | fuel + 1, i, nfaStates, acceptSetMap, dfaNodes =>
      if i < nfaStates.size then
        let r := toDFAStep nfa i nfaStates acceptSetMap dfaNodes
        toDFALoop nfa fuel (i + 1) r.1 r.2.1 r.2.2
      else
        some ⟨nfa.alphabetSize, nfa.acceptCount, acceptSetMap, dfaNodes⟩

/-- `NFA.toDFA()`.  The source's sanity check `startID === 0` always passes
because `nfaStates` is empty when the start state is interned. -/
def NFA.toDFA (nfa : NFA) : Option DFA :=
  let nfaStates : IDMap ISet (List Nat) := IDMap.empty' ISet.key
  let r := getNodeID nfa.nodes nfaStates (ISet.of nfa.nodes.length [nfa.startID])
  toDFALoop nfa (2 ^ nfa.nodes.length + 1) 0 r.1 (IDMap.empty' ISet.arrayKey) []

namespace DFA

/-- `DFA.size()`. -/
def size (dfa : DFA) : Nat := dfa.nodes.length

/-- `DFA.go(state, letterID)`: `none` models the `InvalidState` throw.  In
every DFA this file constructs, `transitions` has length `alphabetSize`, so
the inner access is in range whenever the guard passes. -/
def go (dfa : DFA) (state letterID : Nat) : Option Nat :=
  if state < dfa.nodes.length ∧ letterID < dfa.alphabetSize then
    some ((dfa.nodes.getD state default).transitions.getD letterID 0)
  else none

/-- `DFA.getAcceptIDs(state)`. -/
def getAcceptIDs (dfa : DFA) (state : Nat) : List Nat :=
  (dfa.nodes.getD state default).acceptIDs

/-- `DFA.getAcceptSetID(state)`. -/
def getAcceptSetID (dfa : DFA) (state : Nat) : Nat :=
  (dfa.nodes.getD state default).acceptSetID

/-- `DFA.computeAcceptingStates()`: maps each accept ID to the set of DFA
states accepting it. -/
def computeAcceptingStates (dfa : DFA) : List ISet :=
  let n := dfa.nodes.length
  let table := (List.range dfa.acceptCount).map (fun _ => ISet.empty n)
  (List.range n).foldl
    (fun table id =>
      ((dfa.nodes.getD id default).acceptIDs).foldl
        (fun table acceptID =>
          table.set acceptID ((table.getD acceptID (ISet.empty 0)).add id))
        table)
    table

/-- The `inverseTransitions` table of `minimise`:
`inv[c * n + t]` is the set of states `s` with `transitions[c] = t`. -/
def inverseTransitions (dfa : DFA) : List ISet :=
  let n := dfa.nodes.length
  let inv := (List.range (dfa.alphabetSize * n)).map (fun _ => ISet.empty n)
  (List.range n).foldl
    (fun inv id =>
      let transitions := (dfa.nodes.getD id default).transitions
      (List.range dfa.alphabetSize).foldl
        (fun inv c =>
          let t := transitions.getD c 0
          inv.set (c * n + t) ((inv.getD (c * n + t) (ISet.empty 0)).add id))
        inv)
    inv

end DFA

/-! ## Partition (src/unnamed/part_002, `Partition` class)

The subset records are mutable objects shared between `subsets`, the
`unprocessed` stack and `map`; they are modelled as a heap `store` of records
addressed by stable references (their allocation order), with `subsets`,
`unprocessed` and `map` holding references. -/

structure Subset where
  index : Nat
  start : Nat
  /-- `end` in the source (reserved in Lean). -/
  stop : Nat
  isUnprocessed : Bool
  sibling : Option Nat
  deriving Repr

instance : Inhabited Subset := ⟨⟨0, 0, 0, false, none⟩⟩

structure Partition where
  arr : List Nat
  indices : List Nat
  store : List Subset
  subsets : List Nat
  unprocessed : List Nat
  map : List Nat
  deriving Repr

namespace Partition

def getSubset (p : Partition) (ref : Nat) : Subset := p.store.getD ref default

def setSubset (p : Partition) (ref : Nat) (s : Subset) : Partition :=
  { p with store := p.store.set ref s }

/-- `countSubsets()`. -/
def countSubsets (p : Partition) : Nat := p.subsets.length

/-- `makeSubset(start, end, isUnprocessed)`. -/
def makeSubset (p : Partition) (start stop : Nat) (isUnprocessed : Bool) :
    Partition × Nat :=
  let ref := p.store.length
  let s : Subset := ⟨p.subsets.length, start, stop, isUnprocessed, none⟩
  ({ p with
      store := p.store ++ [s],
      subsets := p.subsets ++ [ref],
      unprocessed := if isUnprocessed then ref :: p.unprocessed else p.unprocessed },
   ref)

/-- `new Partition(n)`. -/
def make (n : Nat) : Partition :=
  let p : Partition := ⟨List.range n, List.range n, [], [], [], []⟩
  let r := p.makeSubset 0 n true
  { r.1 with map := List.replicate n r.2 }

/-- `deleteSubset(subset)`: swap-remove from `subsets` (the source's sanity
check `subset.start === subset.end` is exactly its only caller's guard). -/
def deleteSubset (p : Partition) (ref : Nat) : Partition :=
  let index := (p.getSubset ref).index
  match p.subsets.getLast? with
  | none => p
  | some removed =>
      let p := { p with subsets := p.subsets.dropLast }
      let p :=
        if (p.getSubset removed).index ≠ index then
          let p := p.setSubset removed { p.getSubset removed with index := index }
          { p with subsets := p.subsets.set index removed }
        else p
      p.setSubset ref { p.getSubset ref with isUnprocessed := false }

/-- The body of `pollUnprocessed`: pop until a record with the flag set is
found (deleted or already-handled records are stale and skipped). -/
def pollLoop (p : Partition) : List Nat → Partition × Option (List Nat)
  | [] => ({ p with unprocessed := [] }, none)
  | ref :: rest =>
      let s := p.getSubset ref
      if s.isUnprocessed then
        let p := { p with unprocessed := rest }
        let p := p.setSubset ref { s with isUnprocessed := false }
        (p, some ((p.arr.drop s.start).take (s.stop - s.start)))
      else pollLoop p rest

/-- `pollUnprocessed()`. -/
def pollUnprocessed (p : Partition) : Partition × Option (List Nat) :=
  pollLoop p p.unprocessed

/-- `getRepresentative(x)`. -/
def getRepresentative (p : Partition) (x : Nat) : Nat :=
  p.arr.getD (p.getSubset (p.map.getD x 0)).start 0

/-- The representatives passed to the callback of `forEachRepresentative`,
in order. -/
def representatives (p : Partition) : List Nat :=
  p.subsets.map (fun ref => p.arr.getD (p.getSubset ref).start 0)

/-- `moveToSibling(x, subset)`: `j = subset.end = --sibling.start`, then swap
`arr[indices[x]]` with `arr[j]`. -/
def moveToSibling (p : Partition) (x : Nat) (subsetRef : Nat) : Partition :=
  let subset := p.getSubset subsetRef
  match subset.sibling with
  | none => p
  | some siblingRef =>
      let sibling := p.getSubset siblingRef
      let i := p.indices.getD x 0
      let j := sibling.start - 1
      let p := p.setSubset siblingRef { sibling with start := j }
      let p := p.setSubset subsetRef { p.getSubset subsetRef with stop := j }
      let y := p.arr.getD j 0
      let p := { p with arr := p.arr.set i y }
      let p := { p with indices := p.indices.set y i }
      let p := { p with arr := p.arr.set j x }
      let p := { p with indices := p.indices.set x j }
      { p with map := p.map.set x siblingRef }

/-- `refine(set)`. -/
def refine (p : Partition) (set : ISet) : Partition :=
  let r := set.toList.foldl
    (fun (r : Partition × List Nat) x =>
      let p := r.1
      let subsetRef := p.map.getD x 0
      let subset := p.getSubset subsetRef
      let r2 :=
        if subset.sibling = none then
          let m := p.makeSubset subset.stop subset.stop subset.isUnprocessed
          (m.1.setSubset subsetRef { m.1.getSubset subsetRef with sibling := some m.2 },
           r.2 ++ [subsetRef])
        else (p, r.2)
      (r2.1.moveToSibling x subsetRef, r2.2))
    (p, [])
  r.2.foldl
    (fun p subsetRef =>
      let subset := p.getSubset subsetRef
      let p :=
        if subset.start = subset.stop then p.deleteSubset subsetRef
        else if !subset.isUnprocessed then
          match subset.sibling with
          | none => p
          | some sibRef =>
              let sibling := p.getSubset sibRef
              let minRef :=
                if subset.stop - subset.start ≤ sibling.stop - sibling.start
                then subsetRef else sibRef
              let p := p.setSubset minRef { p.getSubset minRef with isUnprocessed := true }
              { p with unprocessed := minRef :: p.unprocessed }
        else p
      p.setSubset subsetRef { p.getSubset subsetRef with sibling := none })
    r.1

end Partition

/-! ## Hopcroft minimisation (src/unnamed/part_002, `DFA.minimise`) -/

inductive MinimiseResult where
  | outOfFuel
  | shortcut
  | completed (p : Partition)

/-- The `for (let c = 0; ...)` loop inside the worklist loop of `minimise`:
refine by the `c`-preimage of the polled subset `a`; `none` signals the
shortcut return (`countSubsets() === n`). -/
def minimiseInner (n : Nat) (inv : List ISet) (a : List Nat) :
    List Nat → Partition → Option Partition
  | [], p => some p
  | c :: cs, p =>
      let x := a.foldl
        (fun x id => x.addAll (inv.getD (c * n + id) (ISet.empty n)))
        (ISet.empty n)
      let p := p.refine x
      if p.countSubsets = n then none
      else minimiseInner n inv a cs p

/-- The worklist (`while (true)`) loop of `minimise`.  A fuel of `n + 2`
suffices: each successful poll clears one flag, and flags are set at most
`n + 1` times over the whole run. -/
def minimiseLoop (alphabetSize n : Nat) (inv : List ISet) :
    Nat → Partition → MinimiseResult
  | 0, _ => .outOfFuel
  | fuel + 1, p =>
      let r := p.pollUnprocessed
      match r.2 with
      | none => .completed r.1
      | some a =>
          match minimiseInner n inv a (List.range alphabetSize) r.1 with
          | none => .shortcut
          | some p => minimiseLoop alphabetSize n inv fuel p

/-- `DFA.minimise()`. -/
def DFA.minimise (dfa : DFA) : Option DFA :=
  let n := dfa.nodes.length
  let inv := dfa.inverseTransitions
  let p0 := (dfa.computeAcceptingStates).foldl Partition.refine (Partition.make n)
  match minimiseLoop dfa.alphabetSize n inv (n + 2) p0 with
  | .outOfFuel => none
  | .shortcut => some dfa
  | .completed p =>
      let reps : IDMap Nat Nat := IDMap.empty' (fun id => p.getRepresentative id)
      let reps := (reps.getOrCreateID 0).1
      let reps := (p.representatives).foldl (fun m x => (m.getOrCreateID x).1) reps
      match reps.arr.mapM (fun rep =>
          (dfa.nodes.get? rep).bind (fun node =>
            (node.transitions.mapM (fun nodeID => reps.getID nodeID)).map
              (fun transitions => (⟨transitions, node.acceptSetID, node.acceptIDs⟩ : DFANode)))) with
      | none => none
      | some repNodes => some ⟨dfa.alphabetSize, dfa.acceptCount, dfa.acceptSetMap, repNodes⟩

/-- `Regex.compile(alphabetSize, acceptCount, regex)`. -/
def Regex.compile (alphabetSize acceptCount : Nat) (regex : Regex) : Option DFA :=
  (NFA.make alphabetSize acceptCount regex).toDFA.bind DFA.minimise

/-! ## Pattern (src/unnamed/part_002, `Pattern` class) -/

structure Pattern where
  width : Nat
  height : Nat
  /-- Cell values; `-1` is a wildcard. -/
  rasterData : List Int
  /-- Flat `(x, y, c)` triples of the non-wildcard cells, row-major. -/
  vectorData : List Int
  minX : Nat
  minY : Nat
  maxX : Nat
  maxY : Nat
  deriving Repr

/-- The `Pattern` constructor: computes `vectorData` and the bounding box
from the raster. -/
def Pattern.make (width height : Nat) (rasterData : List Int) : Pattern :=
  let st := (List.range height).foldl
    (fun st y =>
      (List.range width).foldl
        (fun (st : List Int × Nat × Nat × Nat × Nat) x =>
          let c := rasterData.getD (x + width * y) (-1)
          if 0 ≤ c then
            let (vd, mnX, mnY, mxX, mxY) := st
            (vd ++ [Int.ofNat x, Int.ofNat y, c],
             min mnX x, min mnY y, max mxX (x + 1), max mxY (y + 1))
          else st)
        st)
    (([] : List Int), width, height, 0, 0)
  let (vd, mnX, mnY, mxX, mxY) := st
  ⟨width, height, rasterData, vd, min mnX mxX, min mnY mxY, mxX, mxY⟩

/-- `Pattern.key(pattern)`: the string key `width:height:raster.join(,)`,
modelled by the tuple it uniquely encodes. -/
def Pattern.key (p : Pattern) : Nat × Nat × List Int :=
  (p.width, p.height, p.rasterData)

/-- `pattern.split('/')` on the character list of the pattern string. -/
def splitRows : List Char → List (List Char)
  | [] => [[]]
  | c :: rest =>
      if c = '/' then [] :: splitRows rest
      else
        match splitRows rest with
        | r :: rs => (c :: r) :: rs
        | [] => [[c]]

/-- `Pattern.of(alphabet, pattern)`: parse a `/`-separated string.  `none`
models the `MalformedPattern` throw (unequal row lengths) and the
`UnknownKey` throw from the alphabet lookup. -/
def Pattern.of (alphabet : IDMap Char Char) (pattern : String) : Option Pattern :=
  let rows := splitRows pattern.toList
  let width := (rows.headD []).length
  if rows.any (fun row => row.length ≠ width) then none
  else
    (rows.flatten.mapM (fun c =>
      if c = '*' then some (-1 : Int) else (alphabet.getID c).map Int.ofNat)).map
      (fun rasterData => Pattern.make width rows.length rasterData)

/-- `Pattern.rows()`: the rows as width×1 patterns. -/
def Pattern.rows (p : Pattern) : List Pattern :=
  (List.range p.height).map
    (fun y => Pattern.make p.width 1 ((p.rasterData.drop (y * p.width)).take p.width))

/-! ## SampleableSet (src/unnamed/part_002): the positional `indices` map is
determined by `arr` (its invariant `arr[indices.get(x)] == x`), so only `arr`
is carried. -/

structure SampleableSet where
  arr : List Nat
  deriving Repr

namespace SampleableSet

def size (s : SampleableSet) : Nat := s.arr.length

def has (s : SampleableSet) (x : Nat) : Bool := s.arr.contains x

/-- `add(x)`: append if absent. -/
def add (s : SampleableSet) (x : Nat) : SampleableSet :=
  if s.arr.contains x then s else ⟨s.arr ++ [x]⟩

/-- `delete(x)`: swap-remove with the last element. -/
def delete (s : SampleableSet) (x : Nat) : SampleableSet :=
  match s.arr.findIdx? (· = x) with
  | none => s
  | some i =>
      let j := s.arr.length - 1
      let arr := if i ≠ j then s.arr.set i (s.arr.getD j 0) else s.arr
      ⟨arr.dropLast⟩

end SampleableSet

/-! ## Grid (src/unnamed/part_002, `Grid` class)

`notify` runs the registered listeners in registration order; a
`MatcherState` registers its `recompute` as the first listener, which is
modelled at the `MatcherState` level below.  The error payload of a failing
operation carries the grid as already mutated at the moment of the throw. -/

inductive Err where
  | outOfBounds
  | unknownKey
  | invalidState
  deriving Repr, DecidableEq

structure Rect where
  startX : Nat
  startY : Nat
  endX : Nat
  endY : Nat
  deriving Repr

structure Grid where
  alphabet : IDMap Char Char
  width : Nat
  height : Nat
  grid : List Nat

namespace Grid

/-- `index(x, y)`: bounds check then linearise.  Coordinates are naturals
here; the source's `x < 0 || y < 0` cases cannot arise. -/
def index (g : Grid) (x y : Nat) : Except Err Nat :=
  if x < g.width ∧ y < g.height then .ok (x + y * g.width) else .error .outOfBounds

/-- `new Grid(alphabet, width, height)`: all cells start at symbol 0. -/
def make (alphabet : IDMap Char Char) (width height : Nat) : Grid :=
  ⟨alphabet, width, height, List.replicate (width * height) 0⟩

/-- `get(x, y)`. -/
def get (g : Grid) (x y : Nat) : Except Err Char :=
  match g.index x y with
  | .error e => .error e
  | .ok i =>
      match g.alphabet.getByID (g.grid.getD i 0) with
      | some v => .ok v
      | none => .error .unknownKey

/-- `set(x, y, value)`: bounds check (left-hand side), then the alphabet
lookup (right-hand side, `UnknownKey` on failure), then the write, then the
notification rectangle.  No mutation happens on either failure. -/
def set (g : Grid) (x y : Nat) (value : Char) : Except Err (Grid × Rect) :=
  match g.index x y with
  | .error e => .error e
  | .ok i =>
      match g.alphabet.getID value with
      | none => .error .unknownKey
      | some v => .ok ({ g with grid := g.grid.set i v }, ⟨x, y, x + 1, y + 1⟩)

/-- Splits `vectorData` into its `(dx, dy, c)` triples. -/
def vectorTriples : List Int → List (Int × Int × Int)
  | dx :: dy :: c :: rest => (dx, dy, c) :: vectorTriples rest
  | _ => []

/-- The write loop of `setPattern`: cells are written one at a time, so a
failing bounds check loses neither the earlier writes nor raises them back. -/
def setPatternLoop (g : Grid) (x y : Nat) : List (Int × Int × Int) → Except (Err × Grid) Grid
  | [] => .ok g
  | (dx, dy, c) :: rest =>
      match g.index (x + dx.toNat) (y + dy.toNat) with
      | .error e => .error (e, g)
      | .ok i => setPatternLoop { g with grid := g.grid.set i c.toNat } x y rest

/-- `setPattern(x, y, pattern)`: write all non-wildcard cells, then notify
the pattern's bounding box. -/
def setPattern (g : Grid) (x y : Nat) (pattern : Pattern) : Except (Err × Grid) (Grid × Rect) :=
  match setPatternLoop g x y (vectorTriples pattern.vectorData) with
  | .error e => .error e
  | .ok g2 =>
      .ok (g2, ⟨x + pattern.minX, y + pattern.minY, x + pattern.maxX, y + pattern.maxY⟩)

end Grid

/-! ## PatternMatcher (src/unnamed/part_009, `PatternMatcher` class) -/

structure PatternMatcher where
  alphabet : IDMap Char Char
  numPatterns : Nat
  rowDFA : DFA
  colDFA : DFA
  acceptSetMapSize : Nat
  acceptSetDiffs : List (List Nat)

namespace PatternMatcher

/-- The row regex: `Star(Wildcard)` then the union, over all distinct row
patterns, of the row's atoms reversed followed by `Accept(rowID)`. -/
def rowRegexOf (rowPatterns : IDMap Pattern (Nat × Nat × List Int)) : Regex :=
  Regex.concat [
    Regex.kleeneStar Regex.wildcard,
    Regex.union (rowPatterns.arr.enum.map (fun rp =>
      Regex.concat [
        Regex.concat ((rp.2.rasterData.map
          (fun c => if c < 0 then Regex.wildcard else Regex.letters [c.toNat])).reverse),
        Regex.accept rp.1]))]

/-- `acceptingSets[r]`: the letters of the column alphabet (row-DFA
accept-set IDs) whose accept set contains row `r`. -/
def acceptingSetsOf (rowDFA : DFA) (numRows : Nat) : List (List Nat) :=
  (rowDFA.acceptSetMap.arr.enum).foldl
    (fun sets ix =>
      ix.2.foldl (fun sets x => sets.set x (sets.getD x [] ++ [ix.1])) sets)
    ((List.range numRows).map (fun _ => ([] : List Nat)))

/-- `new PatternMatcher(alphabet, patterns)`. -/
def make (alphabet : IDMap Char Char) (patterns : IDMap Pattern (Nat × Nat × List Int)) :
    Option PatternMatcher := do
  let numPatterns := patterns.size
  let rowPatterns := IDMap.ofWithKey ((patterns.arr.map Pattern.rows).flatten) Pattern.key
  let rowDFA ← Regex.compile alphabet.size rowPatterns.size (rowRegexOf rowPatterns)
  let acceptingSets := acceptingSetsOf rowDFA rowPatterns.size
  let colAtoms ← patterns.arr.mapM (fun pattern =>
    pattern.rows.mapM (fun row =>
      (rowPatterns.getID row).map (fun rowID => Regex.letters (acceptingSets.getD rowID []))))
  let colRegex := Regex.concat [
    Regex.kleeneStar Regex.wildcard,
    Regex.union (colAtoms.enum.map (fun pa =>
      Regex.concat [Regex.concat pa.2.reverse, Regex.accept pa.1]))]
  let colDFA ← Regex.compile rowDFA.acceptSetMap.size numPatterns colRegex
  let acceptSetDiffs := (colDFA.acceptSetMap.arr.map (fun q =>
    let qSet := ISet.of numPatterns q
    colDFA.acceptSetMap.arr.map (fun p => p.filter (fun x => !qSet.has x)))).flatten
  pure ⟨alphabet, numPatterns, rowDFA, colDFA, colDFA.acceptSetMap.size, acceptSetDiffs⟩

/-- `getAcceptSetDiff(pState, qState)`: the precomputed `diffs[pID + k*qID]`.
`none` models the out-of-range access whose `undefined` result would make
the caller's `for..of` throw. -/
def getAcceptSetDiff (m : PatternMatcher) (pState qState : Nat) : Option (List Nat) :=
  let pID := m.colDFA.getAcceptSetID pState
  let qID := m.colDFA.getAcceptSetID qState
  m.acceptSetDiffs.get? (pID + m.acceptSetMapSize * qID)

end PatternMatcher

/-! ## MatcherState (src/unnamed/part_009, `MatcherState` class)

The constructor registers `this.recompute.bind(this)` as the grid's first
change listener, so a grid edit is: mutate the grid, then run `recompute`
on the notified rectangle (then any later-registered listeners).  Failing
operations carry the partially mutated state in the error payload. -/

structure MatcherState where
  matcher : PatternMatcher
  grid : Grid
  rowStates : List Nat
  colStates : List Nat
  matchIndices : List SampleableSet

namespace MatcherState

/-- Inner loop of the `rowStates` phase of `recompute`: `x` runs from
`endX - 1` down to `0`, breaking once the recomputed state agrees with the
stored one to the left of `startX`.  The first component of the result pair
is the updated `rowStates`, the second is `minChangedX`. -/
def rowLoopX (rowDFA : DFA) (g : Grid) (startX y : Nat) :
    Nat → Nat → List Nat × Nat → Except (Err × List Nat × Nat) (List Nat × Nat)
  | 0, _, st => .ok st
  | xp1 + 1, state, st =>
      let x := xp1
      match g.index x y with
      | .error e => .error (e, st)
      | .ok index =>
          match rowDFA.go state (g.grid.getD index rowDFA.alphabetSize) with
          | none => .error (.invalidState, st)
          | some state =>
              if state ≠ st.1.getD index 0 then
                rowLoopX rowDFA g startX y xp1 state (st.1.set index state, min st.2 x)
              else if x < startX then .ok st
              else rowLoopX rowDFA g startX y xp1 state st

/-- Outer loop of the `rowStates` phase: one pass per row `y ∈ [startY, endY)`.
The scan of a row starts from state 0 at the right edge, or from the memoised
state at `(endX, y)`. -/
def rowLoopY (rowDFA : DFA) (g : Grid) (startX endX : Nat) :
    List Nat → List Nat × Nat → Except (Err × List Nat × Nat) (List Nat × Nat)
  | [], st => .ok st
  | y :: ys, st =>
      let state0 :=
        if endX = g.width then Except.ok 0
        else (g.index endX y).map (fun i => st.1.getD i 0)
      match state0 with
      | .error e => .error (e, st)
      | .ok state =>
          match rowLoopX rowDFA g startX y endX state st with
          | .error e => .error e
          | .ok st => rowLoopY rowDFA g startX endX ys st

/-- Inner loop of the `colStates` phase of `recompute`: `y` runs from
`endY - 1` down to `0`; on a changed column state the accept-set diffs drive
deletions and additions on the per-pattern match index sets. -/
def colLoopY (matcher : PatternMatcher) (g : Grid) (rowStates : List Nat) (startY x : Nat) :
    Nat → Nat → List Nat × List SampleableSet →
    Except (Err × List Nat × List SampleableSet) (List Nat × List SampleableSet)
  | 0, _, st => .ok st
  | yp1 + 1, state, st =>
      let y := yp1
      match g.index x y with
      | .error e => .error (e, st)
      | .ok index =>
          let acceptSetID := matcher.rowDFA.getAcceptSetID (rowStates.getD index 0)
          match matcher.colDFA.go state acceptSetID with
          | none => .error (.invalidState, st)
          | some state =>
              let oldState := st.1.getD index 0
              if state ≠ oldState then
                let colStates := st.1.set index state
                match matcher.getAcceptSetDiff oldState state with
                | none => .error (.invalidState, colStates, st.2)
                | some removed =>
                    let mi := removed.foldl
                      (fun mi acceptID =>
                        mi.set acceptID ((mi.getD acceptID ⟨[]⟩).delete index))
                      st.2
                    match matcher.getAcceptSetDiff state oldState with
                    | none => .error (.invalidState, colStates, mi)
                    | some added =>
                        let mi := added.foldl
                          (fun mi acceptID =>
                            mi.set acceptID ((mi.getD acceptID ⟨[]⟩).add index))
                          mi
                        colLoopY matcher g rowStates startY x yp1 state (colStates, mi)
              else if y < startY then .ok st
              else colLoopY matcher g rowStates startY x yp1 state st

/-- Outer loop of the `colStates` phase: one pass per column
`x ∈ [minChangedX, endX)`. -/
def colLoopX (matcher : PatternMatcher) (g : Grid) (rowStates : List Nat) (startY endY : Nat) :
    List Nat → List Nat × List SampleableSet →
    Except (Err × List Nat × List SampleableSet) (List Nat × List SampleableSet)
  | [], st => .ok st
  | x :: xs, st =>
      let state0 :=
        if endY = g.height then Except.ok 0
        else (g.index x endY).map (fun i => st.1.getD i 0)
      match state0 with
      | .error e => .error (e, st)
      | .ok state =>
          match colLoopY matcher g rowStates startY x endY state st with
          | .error e => .error e
          | .ok st => colLoopX matcher g rowStates startY endY xs st

/-- `recompute(startX, startY, endX, endY)`. -/
def recompute (ms : MatcherState) (startX startY endX endY : Nat) :
    Except (Err × MatcherState) MatcherState :=
  match rowLoopY ms.matcher.rowDFA ms.grid startX endX
      (List.range' startY (endY - startY)) (ms.rowStates, startX) with
  | .error (e, rs, _) => .error (e, { ms with rowStates := rs })
  | .ok (rowStates, minChangedX) =>
      match colLoopX ms.matcher ms.grid rowStates startY endY
          (List.range' minChangedX (endX - minChangedX)) (ms.colStates, ms.matchIndices) with
      | .error (e, cs, mi) =>
          .error (e, { ms with rowStates := rowStates, colStates := cs, matchIndices := mi })
      | .ok (colStates, matchIndices) =>
          .ok { ms with rowStates := rowStates, colStates := colStates,
                        matchIndices := matchIndices }

/-- `countMatches(patternID)`. -/
def countMatches (ms : MatcherState) (patternID : Nat) : Option Nat :=
  (ms.matchIndices.get? patternID).map SampleableSet.size

/-- `new MatcherState(matcher, width, height)` via `matcher.makeState`:
zeroed arrays, then a full `recompute`. -/
def initial (matcher : PatternMatcher) (width height : Nat) : MatcherState :=
  let n := width * height
  ⟨matcher, Grid.make matcher.alphabet width height,
   List.replicate n 0, List.replicate n 0,
   (List.range matcher.numPatterns).map (fun _ => ⟨[]⟩)⟩

/-- `grid.set` as observed through a `MatcherState`: the grid write, then
the notification, whose sole listener is `recompute` on the edited cell. -/
def set (ms : MatcherState) (x y : Nat) (value : Char) :
    Except (Err × MatcherState) MatcherState :=
  match ms.grid.set x y value with
  | .error e => .error (e, ms)
  | .ok (g, rect) =>
      ({ ms with grid := g }).recompute rect.startX rect.startY rect.endX rect.endY

/-- `grid.setPattern` as observed through a `MatcherState`.  A bounds
failure happens mid-write: the error state keeps the cells already written,
and no notification (hence no `recompute`) takes place. -/
def setPattern (ms : MatcherState) (x y : Nat) (pattern : Pattern) :
    Except (Err × MatcherState) MatcherState :=
  match ms.grid.setPattern x y pattern with
  | .error (e, g) => .error (e, { ms with grid := g })
  | .ok (g, rect) =>
      ({ ms with grid := g }).recompute rect.startX rect.startY rect.endX rect.endY

end MatcherState

/-- `matcher.makeState(width, height)`. -/
def PatternMatcher.makeState (matcher : PatternMatcher) (width height : Nat) :
    Except (Err × MatcherState) MatcherState :=
  (MatcherState.initial matcher width height).recompute 0 0 width height

/-! ## Scenario helpers: building matchers the way the demo does
(`IDMap.of(alphabetString)` and an `IDMap` of parsed patterns). -/

/-- `IDMap.of(alphabet)`: the symbol alphabet of a matcher. -/
def alphabetOf (s : String) : IDMap Char Char := IDMap.ofWithKey s.toList id

/-- An `IDMap.withKey(Pattern.key)` filled with the parsed patterns. -/
def patternsOf (a : IDMap Char Char) (ps : List String) :
    Option (IDMap Pattern (Nat × Nat × List Int)) :=
  (ps.mapM (Pattern.of a)).map (fun l => IDMap.ofWithKey l Pattern.key)

/-- A matcher over the given alphabet string and pattern strings. -/
def matcherOf (al : String) (ps : List String) : Option PatternMatcher := do
  let a := alphabetOf al
  let p ← patternsOf a ps
  PatternMatcher.make a p

/-- Sets row 0 of the grid to the given symbols, one `grid.set` per cell. -/
def MatcherState.setRowCells (ms : MatcherState) (cs : List Char) :
    Except (Err × MatcherState) MatcherState :=
  cs.enum.foldlM (fun ms xc => ms.set xc.1 0 xc.2) ms

instance : Inhabited DFA := ⟨⟨0, 0, IDMap.empty' ISet.arrayKey, []⟩⟩

instance : Inhabited PatternMatcher :=
  ⟨⟨alphabetOf "", 0, default, default, 0, []⟩⟩

instance : Inhabited MatcherState :=
  ⟨⟨default, Grid.make (alphabetOf "") 0 0, [], [], []⟩⟩

/-- Spec scenario 3: alphabet `"BW"`, patterns `["W*W"]`, a 5×1 grid whose
row is set (cell by cell) to `"WBWBW"`. -/
def scenarioWstarW : Option MatcherState := do
  let m ← matcherOf "BW" ["W*W"]
  let ms ← (m.makeState 5 1).toOption
  (ms.setRowCells "WBWBW".toList).toOption

/-- The matcher over `"AB"` with patterns `["A", "AA"]`, used as a witness
instance. -/
def matcherA_AA : PatternMatcher := (matcherOf "AB" ["A", "AA"]).getD default

/-- C9 (witness): setting `'X'` (not in the alphabet `"BW"`) at the
in-bounds cell (0, 0) of a fresh 5×1 state. -/
def stateWstarW : MatcherState :=
  (((matcherOf "BW" ["W*W"]).getD default).makeState 5 1).toOption.getD default

/-- C4 (counterexample): on a 2×1 grid over `"AB"` (cells `[0, 0]`),
`setPattern(1, 0, "BB")` writes cell (1,0) and then throws OutOfBounds on
cell (2,0): the operation fails but the grid is left as `[0, 1]` — the
engine state is *not* unmodified. -/
def scenarioPartialWrite : Option (List Nat × Err × List Nat) := do
  let m ← matcherOf "AB" ["A"]
  let p ← Pattern.of (alphabetOf "AB") "BB"
  let ms ← (m.makeState 2 1).toOption
  match ms.setPattern 1 0 p with
  | .error ems => pure (ms.grid.grid, ems.1, ems.2.grid.grid)
  | .ok _ => none

/-- C4 (witness): the amended statement instantiated at a fresh 2×1 state
over `"AB"`, coordinate (5, 0) and pattern `"BB"`. -/
def stateAB : MatcherState :=
  (((matcherOf "AB" ["A"]).getD default).makeState 2 1).toOption.getD default

def patternBB : Pattern := (Pattern.of (alphabetOf "AB") "BB").getD (Pattern.make 0 0 [])

/-- A `MatcherState` whose grid has one additional listener, registered via
`grid.listen` *after* the state's construction — so after the internal
`recompute` listener, because `Grid.listen` appends and `Grid.notify` runs
listeners in registration order.  The probe records `countMatches(pid)` at
the moment it is invoked. -/
structure ProbedState where
  ms : MatcherState
  pid : Nat
  log : List (Option Nat)

/-- An edit through `grid.set` as seen by the probed state: the cell write,
then the notification, which runs the matcher's `recompute` first and the
probe second. -/
def ProbedState.set (ps : ProbedState) (x y : Nat) (value : Char) :
    Except (Err × ProbedState) ProbedState :=
  match ps.ms.grid.set x y value with
  | .error e => .error (e, ps)
  | .ok gr =>
      match ({ ps.ms with grid := gr.1 }).recompute
          gr.2.startX gr.2.startY gr.2.endX gr.2.endY with
      | .error ems => .error (ems.1, { ps with ms := ems.2 })
      | .ok ms2 =>
          .ok { ps with ms := ms2, log := ps.log ++ [ms2.countMatches ps.pid] }

/-- C5 (counterexample): on a 2×2 grid over `"BI"` with the single pattern
`"I"` (0 matches initially), a listener registered after `makeState` that
queries `countMatches` during the edit `set(1, 1, I)` observes 1 — the
count from *after* the edit's `recompute` — not the pre-edit count 0.
The claim that listeners fire before the internal recompute is false for
listeners registered on a `MatcherState`'s grid after its construction. -/
def scenarioProbe : Option (Option Nat × List (Option Nat)) := do
  let m ← matcherOf "BI" ["I"]
  let ms ← (m.makeState 2 2).toOption
  match ProbedState.set ⟨ms, 0, []⟩ 1 1 'I' with
  | .ok ps2 => pure (ms.countMatches 0, ps2.log)
  | .error _ => none

/-- C5 (witness): the amended statement instantiated on the 2×2 `"BI"`
scenario. -/
def stateBI : MatcherState :=
  (((matcherOf "BI" ["I"]).getD default).makeState 2 2).toOption.getD default

def gridAfterBI : Grid × Rect :=
  (stateBI.grid.set 1 1 'I').toOption.getD (Grid.make (alphabetOf "") 0 0, ⟨0, 0, 0, 0⟩)

def msAfterBI : MatcherState :=
  (({ stateBI with grid := gridAfterBI.1 }).recompute
    gridAfterBI.2.startX gridAfterBI.2.startY
    gridAfterBI.2.endX gridAfterBI.2.endY).toOption.getD default

/-- The full-grid recompute of `stateAB`, used as a witness instance. -/
def msAB1 : MatcherState :=
  (stateAB.recompute 0 0 stateAB.grid.width stateAB.grid.height).toOption.getD default

/-! # Theorems -/

/-- C6 (counterexample): with alphabet `"BW"`, the single pattern `"W*W"`
and a 5×1 grid set to `"WBWBW"`, the engine reports `countMatches = 2`
(not 3 as claimed): at (1,0) the leftmost pattern cell `W` falls on a `B`.
The match index set is `{0, 2}`, not `{0, 1, 2}`. -/
theorem scenarioWstarW_two_matches_not_three :
    (scenarioWstarW.map
      (fun ms => (ms.countMatches 0, ms.matchIndices.map SampleableSet.arr)))
      = some (some 2, [[0, 2]]) ∧ (some 2 : Option Nat) ≠ some 3 := by decide

/-- C6 (amended): with alphabet `"BW"`, the single pattern `"W*W"` and a
5×1 grid whose row is set to `"WBWBW"`, the engine reports
`countMatches = 2` for that pattern, with the match index set equal to the
positions `{(0,0), (2,0)}` (linear indices `{0, 2}`). -/
theorem scenarioWstarW_matches :
    (scenarioWstarW.map
      (fun ms => (ms.countMatches 0, ms.matchIndices.map SampleableSet.arr)))
      = some (some 2, [[0, 2]]) := by decide

/-- C3 (counterexample): for the matcher over alphabet `"AB"` with patterns
`["A", "AA"]`, the colDFA state 1 simultaneously accepts both patterns and
its interned accept-set array is `[1, 0]`; the precomputed diff against the
empty accept set (state 0) is returned as `[1, 0]`, which is not a sorted
list — refuting the claim's "is a sorted list of accept-IDs" conjunct. -/
theorem getAcceptSetDiff_not_sorted :
    ((matcherOf "AB" ["A", "AA"]).map (fun m => m.getAcceptSetDiff 1 0))
        = some (some [1, 0])
      ∧ ¬ List.Sorted (· ≤ ·) ([1, 0] : List Nat) := by decide

/-! ### Lemmas on `ISet` membership and grid-shaped flattened tables -/

theorem ISet.has_add (s : ISet) (y x : Nat) :
    (s.add y).has x = (s.has x || x = y) := by
  unfold ISet.add ISet.has
  by_cases h : y ∈ s.elems <;> by_cases hx : x = y <;>
    simp [h, hx, List.contains]

theorem ISet.has_foldl_add (xs : List Nat) (s : ISet) (x : Nat) :
    (xs.foldl ISet.add s).has x = (s.has x || xs.contains x) := by
  induction xs generalizing s with
  | nil => simp
  | cons y ys ih =>
      simp only [List.foldl_cons, ih, ISet.has_add, List.contains]
      by_cases hx : x = y <;> simp [hx]

/-- Membership in `ISet.of n xs` is membership in `xs` (every element the
engine inserts is below the padded domain). -/
theorem ISet.has_of (n : Nat) (xs : List Nat) (x : Nat) :
    (ISet.of n xs).has x = xs.contains x := by
  unfold ISet.of
  rw [ISet.has_foldl_add]
  simp [ISet.empty, ISet.has]

/-- Indexing into the flattening of a list of `K`-length rows:
entry `i + K * j` is entry `i` of row `j`. -/
theorem flatten_get_grid {β : Type} (ls : List (List β)) (K i j : Nat)
    (hlen : ∀ l ∈ ls, l.length = K) (hi : i < K) :
    ls.flatten.get? (i + K * j) = (ls.get? j).bind (fun l => l.get? i) := by
  induction ls generalizing j with
  | nil => simp
  | cons hd tl ih =>
      have hhd : hd.length = K := hlen hd (by simp)
      match j with
      | 0 =>
          simp only [List.flatten_cons, Nat.mul_zero, Nat.add_zero]
          rw [List.get?_append (by omega)]
          simp
      | j + 1 =>
          simp only [List.flatten_cons]
          rw [List.get?_append_right (by rw [hhd]; nlinarith)]
          have : i + K * (j + 1) - hd.length = i + K * j := by rw [hhd]; ring_nf; omega
          rw [this, ih j (fun l hl => hlen l (by simp [hl]))]
          simp

/-- The fields of a successfully constructed `PatternMatcher` read back from
the constructor: the diff table is the `K × K` grid of filtered accept-set
arrays, flattened with `q` outermost. -/
theorem PatternMatcher.make_fields (a : IDMap Char Char)
    (ps : IDMap Pattern (Nat × Nat × List Int)) (m : PatternMatcher)
    (hm : PatternMatcher.make a ps = some m) :
    m.numPatterns = ps.size ∧
    m.acceptSetMapSize = m.colDFA.acceptSetMap.size ∧
    m.acceptSetDiffs = ((m.colDFA.acceptSetMap.arr.map (fun q =>
      let qSet := ISet.of m.numPatterns q
      m.colDFA.acceptSetMap.arr.map (fun p => p.filter (fun x => !qSet.has x)))).flatten) := by
  simp only [PatternMatcher.make, Option.bind_eq_some, Option.pure_def,
    Option.some.injEq, bind, Option.bind_eq_some] at hm
  obtain ⟨rowDFA, hrow, colAtoms, hatoms, colDFA, hcol, hm⟩ := hm
  subst hm
  simp

/-- C3 (amended): for every matcher built by `PatternMatcher.make` and every
pair of colDFA states whose accept-set IDs `pID`, `qID` index accept sets
`P`, `Q` of the colDFA's `acceptSetMap`, `getAcceptSetDiff` returns the
precomputed entry stored at index `pID + K·qID` (K = |acceptSetMap|), and
that entry contains exactly the accept-IDs in `P` and not in `Q` — it is
`P` filtered by non-membership in `Q`, in `P`'s stored order (not
necessarily sorted). -/
theorem getAcceptSetDiff_entries (a : IDMap Char Char)
    (ps : IDMap Pattern (Nat × Nat × List Int)) (m : PatternMatcher)
    (hm : PatternMatcher.make a ps = some m) (pState qState : Nat)
    (P Q : List Nat)
    (hP : m.colDFA.acceptSetMap.arr.get? (m.colDFA.getAcceptSetID pState) = some P)
    (hQ : m.colDFA.acceptSetMap.arr.get? (m.colDFA.getAcceptSetID qState) = some Q) :
    ∃ diff,
      m.acceptSetDiffs.get? (m.colDFA.getAcceptSetID pState
        + m.acceptSetMapSize * m.colDFA.getAcceptSetID qState) = some diff ∧
      m.getAcceptSetDiff pState qState = some diff ∧
      diff = P.filter (fun x => !(ISet.of m.numPatterns Q).has x) ∧
      (∀ x, x ∈ diff ↔ (x ∈ P ∧ x ∉ Q)) := by
  obtain ⟨hnum, hk, hdiffs⟩ := PatternMatcher.make_fields a ps m hm
  have hPlt : m.colDFA.getAcceptSetID pState < m.colDFA.acceptSetMap.arr.length := by
    rcases List.get?_eq_some.mp hP with ⟨h, _⟩
    exact h
  have hentry : m.acceptSetDiffs.get? (m.colDFA.getAcceptSetID pState
      + m.acceptSetMapSize * m.colDFA.getAcceptSetID qState)
      = some (P.filter (fun x => !(ISet.of m.numPatterns Q).has x)) := by
    rw [hdiffs, hk]
    simp only [IDMap.size]
    rw [flatten_get_grid _ m.colDFA.acceptSetMap.arr.length _ _
      (by intro l hl; rcases List.mem_map.mp hl with ⟨q, _, rfl⟩; simp) hPlt]
    rw [List.get?_map, hQ]
    simp only [Option.map_some', Option.some_bind, List.get?_map, hP]
  refine ⟨P.filter (fun x => !(ISet.of m.numPatterns Q).has x), hentry, hentry, rfl, ?_⟩
  intro x
  rw [List.mem_filter]
  simp [ISet.has_of, List.contains]

/-! ### C9 / C4: error atomicity of the grid operations -/

/-- C9: for every in-bounds coordinate and a value that is not a symbol of
the matcher's alphabet, `grid.set` throws UnknownKey (from the alphabet
IDMap lookup) and is atomic: the error state is exactly the state before
the call — no cell is written, no notification (hence no `recompute`)
happens, and rowStates, colStates and all match indices are unchanged. -/
theorem set_unknown_value_atomic (ms : MatcherState) (x y : Nat) (value : Char)
    (hx : x < ms.grid.width) (hy : y < ms.grid.height)
    (hkey : ms.grid.alphabet.keyFunc = id)
    (hvalue : value ∉ ms.grid.alphabet.arr) :
    ms.set x y value = .error (.unknownKey, ms) := by
  have hid : ms.grid.alphabet.getID value = none := by
    unfold IDMap.getID IDMap.findKey
    rw [List.findIdx?_eq_none_iff]
    intro z hz
    rw [hkey]
    simp only [id_eq, decide_eq_false_iff_not]
    intro h
    exact hvalue (h ▸ hz)
  unfold MatcherState.set Grid.set Grid.index
  rw [if_pos ⟨hx, hy⟩, hid]

theorem set_unknown_value_atomic_witness :
    stateWstarW.set 0 0 'X' = .error (.unknownKey, stateWstarW) :=
  set_unknown_value_atomic stateWstarW 0 0 'X' (by decide) (by decide) rfl (by decide)

/-- The write loop of `setPattern` fails only with OutOfBounds, and the grid
it leaves behind is the successful write of a prefix of the triples. -/
theorem Grid.setPatternLoop_error (g : Grid) (x y : Nat)
    (ts : List (Int × Int × Int)) (e : Err) (g2 : Grid)
    (h : Grid.setPatternLoop g x y ts = .error (e, g2)) :
    e = .outOfBounds ∧
    ∃ pre post, ts = pre ++ post ∧ Grid.setPatternLoop g x y pre = .ok g2 := by
  induction ts generalizing g with
  | nil => simp [Grid.setPatternLoop] at h
  | cons t rest ih =>
      obtain ⟨dx, dy, c⟩ := t
      unfold Grid.setPatternLoop Grid.index at h
      by_cases hin : x + dx.toNat < g.width ∧ y + dy.toNat < g.height
      · rw [if_pos hin] at h
        rcases ih _ h with ⟨he, pre, post, hsplit, hpre⟩
        exact ⟨he, (dx, dy, c) :: pre, post, by simp [hsplit],
          by unfold Grid.setPatternLoop Grid.index; rw [if_pos hin]; exact hpre⟩
      · rw [if_neg hin] at h
        simp only [Except.error.injEq, Prod.mk.injEq] at h
        obtain ⟨he, hg⟩ := h
        exact ⟨he.symm, [], (dx, dy, c) :: rest, rfl, by simp [Grid.setPatternLoop, hg]⟩

/-- The write loop of `setPattern` must fail when some triple targets an
out-of-bounds cell (writes do not change the grid's dimensions). -/
theorem Grid.setPatternLoop_oob (g : Grid) (x y : Nat)
    (ts : List (Int × Int × Int))
    (hsome : ∃ t ∈ ts, ¬(x + t.1.toNat < g.width ∧ y + t.2.1.toNat < g.height)) :
    ∃ g2, Grid.setPatternLoop g x y ts = .error (.outOfBounds, g2) := by
  induction ts generalizing g with
  | nil => simp at hsome
  | cons t rest ih =>
      obtain ⟨dx, dy, c⟩ := t
      by_cases hin : x + dx.toNat < g.width ∧ y + dy.toNat < g.height
      · rcases hsome with ⟨t2, ht2, hoob⟩
        rcases List.mem_cons.mp ht2 with rfl | hmem
        · exact absurd hin hoob
        · rcases ih { g with grid := g.grid.set (x + dx.toNat + (y + dy.toNat) * g.width) c.toNat }
            ⟨t2, hmem, hoob⟩ with ⟨g2, hg2⟩
          refine ⟨g2, ?_⟩
          unfold Grid.setPatternLoop Grid.index
          rw [if_pos hin]
          exact hg2
      · refine ⟨g, ?_⟩
        unfold Grid.setPatternLoop Grid.index
        rw [if_neg hin]

/-- C4 (amended): an out-of-bounds coordinate fails `get` and `set`
atomically (OutOfBounds, state unmodified).  A `setPattern` some of whose
target cells are out of bounds also fails with OutOfBounds before any
notification, so rowStates, colStates and all match indices are unchanged —
but the failure happens mid-write: the cells of a prefix of the pattern's
write plan keep their newly written values. -/
theorem out_of_bounds_behaviour (ms : MatcherState) (x y : Nat) (value : Char)
    (p : Pattern) :
    (¬(x < ms.grid.width ∧ y < ms.grid.height) →
      ms.grid.get x y = .error .outOfBounds ∧
      ms.set x y value = .error (.outOfBounds, ms)) ∧
    ((∃ t ∈ Grid.vectorTriples p.vectorData,
        ¬(x + t.1.toNat < ms.grid.width ∧ y + t.2.1.toNat < ms.grid.height)) →
      ∃ ms2,
        ms.setPattern x y p = .error (.outOfBounds, ms2) ∧
        ms2.matcher = ms.matcher ∧
        ms2.rowStates = ms.rowStates ∧
        ms2.colStates = ms.colStates ∧
        ms2.matchIndices = ms.matchIndices ∧
        ∃ pre post, Grid.vectorTriples p.vectorData = pre ++ post ∧
          Grid.setPatternLoop ms.grid x y pre = .ok ms2.grid) := by
  constructor
  · intro hoob
    constructor
    · unfold Grid.get Grid.index
      rw [if_neg hoob]
    · unfold MatcherState.set Grid.set Grid.index
      rw [if_neg hoob]
  · intro hsome
    rcases Grid.setPatternLoop_oob ms.grid x y _ hsome with ⟨g2, hloop⟩
    rcases Grid.setPatternLoop_error _ _ _ _ _ _ hloop with ⟨_, pre, post, hsplit, hpre⟩
    refine ⟨{ ms with grid := g2 }, ?_, rfl, rfl, rfl, rfl, pre, post, hsplit, hpre⟩
    unfold MatcherState.setPattern Grid.setPattern
    rw [hloop]

theorem setPattern_oob_not_atomic :
    scenarioPartialWrite = some ([0, 0], .outOfBounds, [0, 1])
      ∧ ([0, 1] : List Nat) ≠ [0, 0] := by decide

theorem out_of_bounds_behaviour_witness :
    (stateAB.grid.get 5 0 = .error .outOfBounds ∧
     stateAB.set 5 0 'A' = .error (.outOfBounds, stateAB)) ∧
    (∃ ms2,
      stateAB.setPattern 5 0 patternBB = .error (.outOfBounds, ms2) ∧
      ms2.matcher = stateAB.matcher ∧
      ms2.rowStates = stateAB.rowStates ∧
      ms2.colStates = stateAB.colStates ∧
      ms2.matchIndices = stateAB.matchIndices ∧
      ∃ pre post, Grid.vectorTriples patternBB.vectorData = pre ++ post ∧
        Grid.setPatternLoop stateAB.grid 5 0 pre = .ok ms2.grid) := by
  obtain ⟨h1, h2⟩ := out_of_bounds_behaviour stateAB 5 0 'A' patternBB
  exact ⟨h1 (by decide), h2 ⟨(0, 0, 1), by decide, by decide⟩⟩

/-! ### C5: listener ordering -/

theorem listener_sees_post_edit_counts :
    scenarioProbe = some (some 0, [some 1]) ∧ (some 1 : Option Nat) ≠ some 0 := by
  decide

/-- C5 (amended): the `MatcherState` constructor registers its `recompute`
as the grid's first listener, so a listener registered afterwards via
`grid.listen` is invoked after `recompute` has updated rowStates, colStates
and the match indices for the edit: on a successful edit the probe's logged
`countMatches` is that of the post-recompute state. -/
theorem probe_set_runs_after_recompute (ps : ProbedState) (x y : Nat) (value : Char)
    (g : Grid) (rect : Rect) (ms2 : MatcherState)
    (hset : ps.ms.grid.set x y value = .ok (g, rect))
    (hrec : ({ ps.ms with grid := g }).recompute
      rect.startX rect.startY rect.endX rect.endY = .ok ms2) :
    ps.set x y value = .ok { ps with ms := ms2, log := ps.log ++ [ms2.countMatches ps.pid] } := by
  unfold ProbedState.set
  rw [hset]
  dsimp only
  rw [hrec]

theorem probe_set_runs_after_recompute_witness :
    ProbedState.set ⟨stateBI, 0, []⟩ 1 1 'I'
      = .ok ⟨msAfterBI, 0, [msAfterBI.countMatches 0]⟩ :=
  probe_set_runs_after_recompute ⟨stateBI, 0, []⟩ 1 1 'I'
    gridAfterBI.1 gridAfterBI.2 msAfterBI rfl rfl

theorem getAcceptSetDiff_entries_witness :
    ∃ diff,
      matcherA_AA.acceptSetDiffs.get? (matcherA_AA.colDFA.getAcceptSetID 1
        + matcherA_AA.acceptSetMapSize * matcherA_AA.colDFA.getAcceptSetID 0) = some diff ∧
      matcherA_AA.getAcceptSetDiff 1 0 = some diff ∧
      diff = ([1, 0] : List Nat).filter
        (fun x => !(ISet.of matcherA_AA.numPatterns ([] : List Nat)).has x) ∧
      (∀ x, x ∈ diff ↔ (x ∈ ([1, 0] : List Nat) ∧ x ∉ ([] : List Nat))) :=
  getAcceptSetDiff_entries (alphabetOf "AB")
    ((patternsOf (alphabetOf "AB") ["A", "AA"]).getD (IDMap.empty' Pattern.key))
    matcherA_AA rfl 1 0 [1, 0] [] (by decide) (by decide)

/-! ### C7: idempotence of the full recompute -/

/-- Rows at distinct `y` occupy disjoint linear indices (given in-row offsets
below the width). -/
theorem row_index_ne {w x1 x2 y1 y2 : Nat} (h1 : x1 < w) (h2 : x2 < w)
    (hy : y1 ≠ y2) : x1 + y1 * w ≠ x2 + y2 * w := by
  intro h
  have := congrArg (· % w) h
  simp only [Nat.add_mul_mod_self_right] at this
  rw [Nat.mod_eq_of_lt h1, Nat.mod_eq_of_lt h2] at this
  subst this
  have hw : 0 < w := by omega
  exact hy (Nat.eq_of_mul_eq_mul_right hw (by omega))

/-- Columns at distinct `x < w` occupy disjoint linear indices. -/
theorem col_index_ne {w x1 x2 y1 y2 : Nat} (h1 : x1 < w) (h2 : x2 < w)
    (hx : x1 ≠ x2) : x1 + y1 * w ≠ x2 + y2 * w := by
  intro h
  have := congrArg (· % w) h
  simp only [Nat.add_mul_mod_self_right] at this
  rw [Nat.mod_eq_of_lt h1, Nat.mod_eq_of_lt h2] at this
  exact hx this

theorem rowLoopX_frame (rowDFA : DFA) (g : Grid) (sx y : Nat) :
    ∀ (xn state : Nat) (st st' : List Nat × Nat),
    MatcherState.rowLoopX rowDFA g sx y xn state st = .ok st' →
    ∀ i, (∀ x', x' < xn → i ≠ x' + y * g.width) → st'.1.getD i 0 = st.1.getD i 0 := by
  intro xn
  induction xn with
  | zero =>
      intro state st st' h i _
      simp only [MatcherState.rowLoopX] at h
      cases h
      rfl
  | succ xp ih =>
      intro state st st' h i hi
      unfold MatcherState.rowLoopX at h
      dsimp only at h
      split at h
      · cases h
      · rename_i index hidx
        have hieq : index = xp + y * g.width := by
          unfold Grid.index at hidx
          split at hidx
          · exact (Except.ok.inj hidx).symm
          · cases hidx
        split at h
        · cases h
        · split at h
          · rw [ih _ _ _ h i (fun x' hx' => hi x' (by omega))]
            have : i ≠ index := hieq ▸ hi xp (by omega)
            simp [List.getD, List.getElem?_set_ne (Ne.symm this)]
          · split at h
            · cases h; rfl
            · exact ih _ _ _ h i (fun x' hx' => hi x' (by omega))

theorem rowLoopX_min_zero (rowDFA : DFA) (g : Grid) (sx y : Nat) :
    ∀ (xn state : Nat) (rs : List Nat) (st' : List Nat × Nat),
    MatcherState.rowLoopX rowDFA g sx y xn state (rs, 0) = .ok st' → st'.2 = 0 := by
  intro xn
  induction xn with
  | zero =>
      intro state rs st' h
      simp only [MatcherState.rowLoopX] at h
      cases h
      rfl
  | succ xp ih =>
      intro state rs st' h
      unfold MatcherState.rowLoopX at h
      dsimp only at h
      split at h
      · cases h
      · split at h
        · cases h
        · split at h
          · rw [Nat.zero_min] at h
            exact ih _ _ _ h
          · split at h
            · cases h; rfl
            · exact ih _ _ _ h

theorem rowLoopX_ok_len (rowDFA : DFA) (g : Grid) (sx y : Nat) :
    ∀ (xn state : Nat) (st st' : List Nat × Nat),
    MatcherState.rowLoopX rowDFA g sx y xn state st = .ok st' → st'.1.length = st.1.length := by
  intro xn
  induction xn with
  | zero =>
      intro state st st' h
      simp only [MatcherState.rowLoopX] at h
      cases h
      rfl
  | succ xp ih =>
      intro state st st' h
      unfold MatcherState.rowLoopX at h
      dsimp only at h
      split at h
      · cases h
      · split at h
        · cases h
        · split at h
          · simpa using ih _ _ _ h
          · split at h
            · cases h; rfl
            · exact ih _ _ _ h

/-- A second scan of a row is a no-op: if a scan from `(rs, 0)` with
`startX = 0` produced `rs'`, then the same scan run on any `rowStates` array
that has the same length and agrees with `rs'` on the scanned row makes no
change. -/
theorem rowLoopX_noop (rowDFA : DFA) (g : Grid) (y : Nat) :
    ∀ (xn state : Nat) (rs : List Nat) (st' : List Nat × Nat),
    MatcherState.rowLoopX rowDFA g 0 y xn state (rs, 0) = .ok st' →
    ∀ (rs₂ : List Nat), rs₂.length = rs.length →
    (∀ x', x' < xn → rs₂.getD (x' + y * g.width) 0 = st'.1.getD (x' + y * g.width) 0) →
    MatcherState.rowLoopX rowDFA g 0 y xn state (rs₂, 0) = .ok (rs₂, 0) := by
  intro xn
  induction xn with
  | zero =>
      intro state rs st' h rs₂ hlen hagree
      simp only [MatcherState.rowLoopX]
  | succ xp ih =>
      intro state rs st' h rs₂ hlen hagree
      unfold MatcherState.rowLoopX at h ⊢
      dsimp only at h ⊢
      cases hidx : g.index xp y with
      | error e => rw [hidx] at h; cases h
      | ok index =>
          rw [hidx] at h
          dsimp only at h ⊢
          have hieq : index = xp + y * g.width := by
            unfold Grid.index at hidx
            split at hidx
            · exact (Except.ok.inj hidx).symm
            · cases hidx
          cases hgo : rowDFA.go state (g.grid.getD index rowDFA.alphabetSize) with
          | none => rw [hgo] at h; cases h
          | some state1 =>
              rw [hgo] at h
              dsimp only at h ⊢
              by_cases hw : state1 ≠ rs.getD index 0
              · rw [if_pos hw, Nat.zero_min] at h
                by_cases hlt : index < rs.length
                · have hst : st'.1.getD index 0 = state1 := by
                    rw [rowLoopX_frame rowDFA g 0 y _ _ _ _ h index
                      (fun x' hx' heq => absurd (Nat.add_right_cancel (hieq ▸ heq))
                        (by omega))]
                    simp [List.getD, List.getElem?_set_eq_of_lt _ hlt]
                  have h2 : rs₂.getD index 0 = state1 := by
                    rw [hieq] at hst ⊢
                    rw [hagree xp (by omega), hst]
                  rw [if_neg (by rw [h2]; simp)]
                  rw [if_neg (by omega : ¬ xp < 0)]
                  exact ih _ _ _ h rs₂ (by simpa using hlen)
                    (fun x' hx' => hagree x' (by omega))
                · have hset : rs.set index state1 = rs :=
                    List.set_eq_of_length_le (by omega)
                  rw [hset] at h
                  have h0 : rs.getD index 0 = 0 :=
                    List.getD_eq_default _ _ (by omega)
                  have h2 : rs₂.getD index 0 = 0 :=
                    List.getD_eq_default _ _ (by omega)
                  rw [if_pos (by rw [h2, ← h0]; exact hw), Nat.zero_min]
                  rw [List.set_eq_of_length_le (by omega : rs₂.length ≤ index)]
                  exact ih _ _ _ h rs₂ hlen (fun x' hx' => hagree x' (by omega))
              · rw [if_neg hw, if_neg (by omega : ¬ xp < 0)] at h
                push_neg at hw
                have hst : st'.1.getD index 0 = rs.getD index 0 :=
                  rowLoopX_frame rowDFA g 0 y _ _ _ _ h index
                    (fun x' hx' heq => absurd (Nat.add_right_cancel (hieq ▸ heq))
                      (by omega))
                have h2 : rs₂.getD index 0 = state1 := by
                  rw [hieq] at hst ⊢
                  rw [hagree xp (by omega), hst, ← hieq, ← hw]
                rw [if_neg (by rw [h2]; simp), if_neg (by omega : ¬ xp < 0)]
                exact ih _ _ _ h rs₂ hlen (fun x' hx' => hagree x' (by omega))

theorem rowLoopY_ok_len (rowDFA : DFA) (g : Grid) (sx endX : Nat) :
    ∀ (ys : List Nat) (st st' : List Nat × Nat),
    MatcherState.rowLoopY rowDFA g sx endX ys st = .ok st' → st'.1.length = st.1.length := by
  intro ys
  induction ys with
  | nil =>
      intro st st' h
      simp only [MatcherState.rowLoopY] at h
      cases h
      rfl
  | cons y ys ih =>
      intro st st' h
      unfold MatcherState.rowLoopY at h
      dsimp only at h
      split at h
      · cases h
      · split at h
        · cases h
        · rename_i st1 hrow
          exact (ih _ _ h).trans (rowLoopX_ok_len rowDFA g sx y _ _ _ _ hrow)

theorem rowLoopY_frame (rowDFA : DFA) (g : Grid) (sx endX : Nat) :
    ∀ (ys : List Nat) (st st' : List Nat × Nat),
    MatcherState.rowLoopY rowDFA g sx endX ys st = .ok st' →
    ∀ i, (∀ y' ∈ ys, ∀ x', x' < endX → i ≠ x' + y' * g.width) →
    st'.1.getD i 0 = st.1.getD i 0 := by
  intro ys
  induction ys with
  | nil =>
      intro st st' h i _
      simp only [MatcherState.rowLoopY] at h
      cases h
      rfl
  | cons y ys ih =>
      intro st st' h i hi
      unfold MatcherState.rowLoopY at h
      dsimp only at h
      split at h
      · cases h
      · split at h
        · cases h
        · rename_i st1 hrow
          rw [ih _ _ h i (fun y' hy' => hi y' (List.mem_cons_of_mem _ hy'))]
          exact rowLoopX_frame rowDFA g sx y _ _ _ _ hrow i
            (fun x' hx' => hi y (List.mem_cons_self _ _) x' hx')

theorem rowLoopY_min_zero (rowDFA : DFA) (g : Grid) (sx endX : Nat) :
    ∀ (ys : List Nat) (rs : List Nat) (st' : List Nat × Nat),
    MatcherState.rowLoopY rowDFA g sx endX ys (rs, 0) = .ok st' → st'.2 = 0 := by
  intro ys
  induction ys with
  | nil =>
      intro rs st' h
      simp only [MatcherState.rowLoopY] at h
      cases h
      rfl
  | cons y ys ih =>
      intro rs st' h
      unfold MatcherState.rowLoopY at h
      dsimp only at h
      split at h
      · cases h
      · split at h
        · cases h
        · rename_i st1 hrow
          obtain ⟨rs1, m1⟩ := st1
          have hm1 : m1 = 0 := rowLoopX_min_zero rowDFA g sx y _ _ _ _ hrow
          subst hm1
          exact ih _ _ h

/-- A second full pass over a set of distinct rows is a no-op, when
`endX = width` (so every row scan starts from state 0 at the right edge). -/
theorem rowLoopY_noop (rowDFA : DFA) (g : Grid) :
    ∀ (ys : List Nat) (rs : List Nat) (st' : List Nat × Nat),
    MatcherState.rowLoopY rowDFA g 0 g.width ys (rs, 0) = .ok st' →
    ys.Pairwise (· ≠ ·) →
    MatcherState.rowLoopY rowDFA g 0 g.width ys (st'.1, 0) = .ok (st'.1, 0) := by
  intro ys
  induction ys with
  | nil =>
      intro rs st' h _
      simp only [MatcherState.rowLoopY] at h ⊢
  | cons y ys ih =>
      intro rs st' h hnd
      unfold MatcherState.rowLoopY at h ⊢
      dsimp only at h ⊢
      rw [if_pos rfl] at h ⊢
      dsimp only at h ⊢
      split at h
      · cases h
      · rename_i st1 hrow
        obtain ⟨rs1, m1⟩ := st1
        have hm1 : m1 = 0 := rowLoopX_min_zero rowDFA g 0 y _ _ _ _ hrow
        subst hm1
        have hrow2 : MatcherState.rowLoopX rowDFA g 0 y g.width 0 (st'.1, 0)
            = .ok (st'.1, 0) := by
          refine rowLoopX_noop rowDFA g y g.width 0 rs (rs1, 0) hrow st'.1
            ((rowLoopY_ok_len rowDFA g 0 g.width ys _ _ h).trans
              (rowLoopX_ok_len rowDFA g 0 y _ _ _ _ hrow)) ?_
          intro x' hx'
          exact rowLoopY_frame rowDFA g 0 g.width ys _ _ h (x' + y * g.width)
            (fun y' hy' x'' hx'' =>
              row_index_ne hx' hx'' (fun hyy => ((List.pairwise_cons.mp hnd).1 y' hy' hyy).elim))
        rw [hrow2]
        exact ih _ _ h (List.pairwise_cons.mp hnd).2

theorem colLoopY_ok_len (matcher : PatternMatcher) (g : Grid) (rowStates : List Nat)
    (sy x : Nat) :
    ∀ (yn state : Nat) (st st' : List Nat × List SampleableSet),
    MatcherState.colLoopY matcher g rowStates sy x yn state st = .ok st' →
    st'.1.length = st.1.length := by
  intro yn
  induction yn with
  | zero =>
      intro state st st' h
      simp only [MatcherState.colLoopY] at h
      cases h
      rfl
  | succ yp ih =>
      intro state st st' h
      unfold MatcherState.colLoopY at h
      dsimp only at h
      split at h
      · cases h
      · split at h
        · cases h
        · split at h
          · split at h
            · cases h
            · split at h
              · cases h
              · simpa using ih _ _ _ h
          · split at h
            · cases h; rfl
            · exact ih _ _ _ h

theorem colLoopY_frame (matcher : PatternMatcher) (g : Grid) (rowStates : List Nat)
    (sy x : Nat) :
    ∀ (yn state : Nat) (st st' : List Nat × List SampleableSet),
    MatcherState.colLoopY matcher g rowStates sy x yn state st = .ok st' →
    ∀ i, (∀ y', y' < yn → i ≠ x + y' * g.width) →
    st'.1.getD i 0 = st.1.getD i 0 := by
  intro yn
  induction yn with
  | zero =>
      intro state st st' h i _
      simp only [MatcherState.colLoopY] at h
      cases h
      rfl
  | succ yp ih =>
      intro state st st' h i hi
      unfold MatcherState.colLoopY at h
      dsimp only at h
      split at h
      · cases h
      · rename_i index hidx
        have hieq : index = x + yp * g.width := by
          unfold Grid.index at hidx
          split at hidx
          · exact (Except.ok.inj hidx).symm
          · cases hidx
        split at h
        · cases h
        · split at h
          · split at h
            · cases h
            · split at h
              · cases h
              · rw [ih _ _ _ h i (fun y' hy' => hi y' (by omega))]
                have : i ≠ index := hieq ▸ hi yp (by omega)
                simp [List.getD, List.getElem?_set_ne (Ne.symm this)]
          · split at h
            · cases h; rfl
            · exact ih _ _ _ h i (fun y' hy' => hi y' (by omega))

/-- A second scan of a column (with `startY = 0`) is a no-op when the
column states array spans the whole grid: every recomputed state agrees
with the stored one, so neither `colStates` nor any match index set is
touched. -/
theorem colLoopY_noop (matcher : PatternMatcher) (g : Grid) (rowStates : List Nat)
    (x : Nat) (hx : x < g.width) :
    ∀ (yn state : Nat) (cs : List Nat) (mi : List SampleableSet)
      (st' : List Nat × List SampleableSet),
    MatcherState.colLoopY matcher g rowStates 0 x yn state (cs, mi) = .ok st' →
    yn ≤ g.height → cs.length = g.width * g.height →
    ∀ (cs₂ : List Nat) (mi₂ : List SampleableSet), cs₂.length = cs.length →
    (∀ y', y' < yn → cs₂.getD (x + y' * g.width) 0 = st'.1.getD (x + y' * g.width) 0) →
    MatcherState.colLoopY matcher g rowStates 0 x yn state (cs₂, mi₂) = .ok (cs₂, mi₂) := by
  intro yn
  induction yn with
  | zero =>
      intro state cs mi st' h _ _ cs₂ mi₂ hlen hagree
      simp only [MatcherState.colLoopY]
  | succ yp ih =>
      intro state cs mi st' h hyn hcs cs₂ mi₂ hlen hagree
      unfold MatcherState.colLoopY at h ⊢
      dsimp only at h ⊢
      cases hidx : g.index x yp with
      | error e => rw [hidx] at h; cases h
      | ok index =>
          rw [hidx] at h
          dsimp only at h ⊢
          have hieq : index = x + yp * g.width := by
            unfold Grid.index at hidx
            split at hidx
            · exact (Except.ok.inj hidx).symm
            · cases hidx
          have hinb : index < cs.length := by
            rw [hieq, hcs]
            calc x + yp * g.width < g.width + yp * g.width := by omega
            _ = (yp + 1) * g.width := by ring
            _ ≤ g.height * g.width := Nat.mul_le_mul_right _ (by omega)
            _ = g.width * g.height := Nat.mul_comm _ _
          cases hgo : matcher.colDFA.go state
              (matcher.rowDFA.getAcceptSetID (rowStates.getD index 0)) with
          | none => rw [hgo] at h; cases h
          | some state1 =>
              rw [hgo] at h
              dsimp only at h ⊢
              by_cases hw : state1 ≠ cs.getD index 0
              · rw [if_pos hw] at h
                cases hd1 : matcher.getAcceptSetDiff (cs.getD index 0) state1 with
                | none => rw [hd1] at h; cases h
                | some removed =>
                    rw [hd1] at h
                    dsimp only at h
                    cases hd2 : matcher.getAcceptSetDiff state1 (cs.getD index 0) with
                    | none => rw [hd2] at h; cases h
                    | some added =>
                        rw [hd2] at h
                        dsimp only at h
                        have hst : st'.1.getD index 0 = state1 := by
                          rw [colLoopY_frame matcher g rowStates 0 x _ _ _ _ h index
                            (fun y' hy' heq => by
                              have h1 : x + yp * g.width = x + y' * g.width := by
                                rw [← hieq, heq]
                              have h2 : yp * g.width = y' * g.width := by omega
                              exact absurd (Nat.eq_of_mul_eq_mul_right (by omega) h2)
                                (by omega))]
                          simp [List.getD, List.getElem?_set_eq_of_lt _ hinb]
                        have h2 : cs₂.getD index 0 = state1 := by
                          rw [hieq] at hst ⊢
                          rw [hagree yp (by omega), hst]
                        rw [if_neg (by rw [h2]; simp)]
                        rw [if_neg (by omega : ¬ yp < 0)]
                        exact ih _ _ _ _ h (by omega) (by simpa using hcs) cs₂ mi₂
                          (by simpa using hlen) (fun y' hy' => hagree y' (by omega))
              · rw [if_neg hw, if_neg (by omega : ¬ yp < 0)] at h
                push_neg at hw
                have hst : st'.1.getD index 0 = cs.getD index 0 :=
                  colLoopY_frame matcher g rowStates 0 x _ _ _ _ h index
                    (fun y' hy' heq => by
                      have h1 : x + yp * g.width = x + y' * g.width := by
                        rw [← hieq, heq]
                      have h2 : yp * g.width = y' * g.width := by omega
                      exact absurd (Nat.eq_of_mul_eq_mul_right (by omega) h2) (by omega))
                have h2 : cs₂.getD index 0 = state1 := by
                  rw [hieq] at hst ⊢
                  rw [hagree yp (by omega), hst, ← hieq, ← hw]
                rw [if_neg (by rw [h2]; simp), if_neg (by omega : ¬ yp < 0)]
                exact ih _ _ _ _ h (by omega) hcs cs₂ mi₂ hlen
                  (fun y' hy' => hagree y' (by omega))

theorem colLoopX_ok_len (matcher : PatternMatcher) (g : Grid) (rowStates : List Nat)
    (sy endY : Nat) :
    ∀ (xs : List Nat) (st st' : List Nat × List SampleableSet),
    MatcherState.colLoopX matcher g rowStates sy endY xs st = .ok st' →
    st'.1.length = st.1.length := by
  intro xs
  induction xs with
  | nil =>
      intro st st' h
      simp only [MatcherState.colLoopX] at h
      cases h
      rfl
  | cons x xs ih =>
      intro st st' h
      unfold MatcherState.colLoopX at h
      dsimp only at h
      split at h
      · cases h
      · split at h
        · cases h
        · rename_i st1 hcol
          exact (ih _ _ h).trans (colLoopY_ok_len matcher g rowStates sy x _ _ _ _ hcol)

theorem colLoopX_frame (matcher : PatternMatcher) (g : Grid) (rowStates : List Nat)
    (sy endY : Nat) :
    ∀ (xs : List Nat) (st st' : List Nat × List SampleableSet),
    MatcherState.colLoopX matcher g rowStates sy endY xs st = .ok st' →
    ∀ i, (∀ x' ∈ xs, ∀ y', y' < endY → i ≠ x' + y' * g.width) →
    st'.1.getD i 0 = st.1.getD i 0 := by
  intro xs
  induction xs with
  | nil =>
      intro st st' h i _
      simp only [MatcherState.colLoopX] at h
      cases h
      rfl
  | cons x xs ih =>
      intro st st' h i hi
      unfold MatcherState.colLoopX at h
      dsimp only at h
      split at h
      · cases h
      · split at h
        · cases h
        · rename_i st1 hcol
          rw [ih _ _ h i (fun x' hx' => hi x' (List.mem_cons_of_mem _ hx'))]
          exact colLoopY_frame matcher g rowStates sy x _ _ _ _ hcol i
            (fun y' hy' => hi x (List.mem_cons_self _ _) y' hy')

/-- A second full pass over a set of distinct columns (with `startY = 0`
and `endY = height`) is a no-op: `colStates` and all match index sets are
left untouched. -/
theorem colLoopX_noop (matcher : PatternMatcher) (g : Grid) (rowStates : List Nat) :
    ∀ (xs : List Nat) (cs : List Nat) (mi : List SampleableSet)
      (st' : List Nat × List SampleableSet),
    MatcherState.colLoopX matcher g rowStates 0 g.height xs (cs, mi) = .ok st' →
    (∀ x ∈ xs, x < g.width) → xs.Pairwise (· ≠ ·) →
    cs.length = g.width * g.height →
    ∀ (mi₂ : List SampleableSet),
    MatcherState.colLoopX matcher g rowStates 0 g.height xs (st'.1, mi₂)
      = .ok (st'.1, mi₂) := by
  intro xs
  induction xs with
  | nil =>
      intro cs mi st' h _ _ _ mi₂
      simp only [MatcherState.colLoopX] at h ⊢
  | cons x xs ih =>
      intro cs mi st' h hxw hnd hcs mi₂
      unfold MatcherState.colLoopX at h ⊢
      dsimp only at h ⊢
      rw [if_pos rfl] at h ⊢
      dsimp only at h ⊢
      split at h
      · cases h
      · rename_i st1 hcol
        obtain ⟨cs1, mi1⟩ := st1
        have hcol2 : MatcherState.colLoopY matcher g rowStates 0 x g.height 0
            (st'.1, mi₂) = .ok (st'.1, mi₂) := by
          refine colLoopY_noop matcher g rowStates x
            (hxw x (List.mem_cons_self _ _)) g.height 0 cs mi (cs1, mi1) hcol
            (le_refl _) hcs st'.1 mi₂
            ((colLoopX_ok_len matcher g rowStates 0 g.height xs _ _ h).trans
              (colLoopY_ok_len matcher g rowStates 0 x _ _ _ _ hcol)) ?_
          intro y' hy'
          exact colLoopX_frame matcher g rowStates 0 g.height xs _ _ h (x + y' * g.width)
            (fun x'' hx'' y'' hy'' heq =>
              (col_index_ne (hxw x (List.mem_cons_self _ _)) (hxw x'' (List.mem_cons_of_mem _ hx''))
                (fun hxx => ((List.pairwise_cons.mp hnd).1 x'' hx'' hxx).elim) heq).elim)
        rw [hcol2]
        exact ih _ _ _ h (fun x' hx' => hxw x' (List.mem_cons_of_mem _ hx'))
          (List.pairwise_cons.mp hnd).2
          ((colLoopY_ok_len matcher g rowStates 0 x _ _ _ _ hcol).trans hcs) mi₂

/-- C7: `recompute` over the whole grid is idempotent: for every
`MatcherState` of a W×H grid (its `colStates` allocated with length W·H, as
the constructor does), if `recompute(0, 0, W, H)` succeeds, running it again
returns the same state unchanged: the second call changes neither
`rowStates` nor `colStates` nor any `matchIndices` set. -/
theorem recompute_full_idempotent (ms ms1 : MatcherState)
    (hcs : ms.colStates.length = ms.grid.width * ms.grid.height)
    (h : ms.recompute 0 0 ms.grid.width ms.grid.height = .ok ms1) :
    ms1.recompute 0 0 ms.grid.width ms.grid.height = .ok ms1 := by
  unfold MatcherState.recompute at h
  split at h
  · cases h
  · rename_i rs1 mcx hrow
    have hmcx : mcx = 0 :=
      rowLoopY_min_zero ms.matcher.rowDFA ms.grid 0 ms.grid.width _ _ _ hrow
    subst hmcx
    split at h
    · cases h
    · rename_i cs1 mi1 hcol
      cases h
      have hrow2 : MatcherState.rowLoopY ms.matcher.rowDFA ms.grid 0 ms.grid.width
          (List.range' 0 (ms.grid.height - 0)) (rs1, 0) = .ok (rs1, 0) :=
        rowLoopY_noop ms.matcher.rowDFA ms.grid _ _ _ hrow (List.nodup_range' ..)
      have hcol2 : MatcherState.colLoopX ms.matcher ms.grid rs1 0 ms.grid.height
          (List.range' 0 (ms.grid.width - 0)) (cs1, mi1) = .ok (cs1, mi1) :=
        colLoopX_noop ms.matcher ms.grid rs1 _ _ _ _ hcol
          (fun x hx => by
            rcases List.mem_range'_1.mp hx with ⟨_, hlt⟩
            omega)
          (List.nodup_range' ..) hcs mi1
      unfold MatcherState.recompute
      dsimp only
      rw [hrow2]
      dsimp only
      rw [hcol2]

/-- C7 (witness): the idempotence statement instantiated at a fresh 2×1
state over `"AB"`. -/
theorem recompute_full_idempotent_witness :
    msAB1.recompute 0 0 stateAB.grid.width stateAB.grid.height = .ok msAB1 :=
  recompute_full_idempotent stateAB msAB1 (by decide) rfl

/-! ### C10: well-formedness of compiled DFAs and safety of `recompute` -/

theorem findIdxQ_lt_length {α : Type} (p : α → Bool) :
    ∀ (l : List α) (i : Nat), l.findIdx? p = some i → i < l.length := by
  intro l
  induction l with
  | nil => intro i h; simp [List.findIdx?] at h
  | cons a as ih =>
      intro i h
      rw [List.findIdx?_cons] at h
      by_cases hp : p a
      · simp [hp] at h
        simp [← h]
      · simp [hp] at h
        rcases h with ⟨j, hj, rfl⟩
        have := ih j hj
        simp
        omega

theorem foldlPreserve {α β : Type} (P : α → Prop) (f : α → β → α)
    (hf : ∀ a b, P a → P (f a b)) :
    ∀ (l : List β) (a : α), P a → P (l.foldl f a) := by
  intro l
  induction l with
  | nil => intro a ha; simpa using ha
  | cons b bs ih => intro a ha; exact ih _ (hf a b ha)

section IDMapLemmas

variable {α κ : Type} [DecidableEq κ]

theorem IDMap.size_getOrCreateID (m : IDMap α κ) (x : α) :
    m.size ≤ (m.getOrCreateID x).1.size := by
  unfold IDMap.getOrCreateID
  split
  · exact le_refl _
  · simp [IDMap.size]

theorem IDMap.getOrCreateID_lt (m : IDMap α κ) (x : α) :
    (m.getOrCreateID x).2 < (m.getOrCreateID x).1.size := by
  unfold IDMap.getOrCreateID
  split
  · rename_i i hi
    exact findIdxQ_lt_length _ _ _ hi
  · simp [IDMap.size]

theorem IDMap.getID_lt (m : IDMap α κ) (x : α) (i : Nat)
    (h : m.getID x = some i) : i < m.size :=
  findIdxQ_lt_length _ _ _ h

theorem IDMap.size_foldl_getOrCreateID (l : List α) (m : IDMap α κ) :
    m.size ≤ (l.foldl (fun m x => (m.getOrCreateID x).1) m).size := by
  induction l generalizing m with
  | nil => exact le_refl _
  | cons x xs ih => exact le_trans (IDMap.size_getOrCreateID m x) (ih _)

end IDMapLemmas

theorem mapM_option_length {α β : Type} (f : α → Option β) :
    ∀ (l : List α) (l2 : List β), l.mapM f = some l2 → l2.length = l.length := by
  intro l
  induction l with
  | nil =>
      intro l2 h
      simp only [List.mapM_nil, pure, Option.some.injEq] at h
      simp [← h]
  | cons a as ih =>
      intro l2 h
      simp only [List.mapM_cons, bind, Option.bind_eq_some, pure,
        Option.some.injEq] at h
      rcases h with ⟨b, _, bs, hbs, rfl⟩
      simp [ih bs hbs]

theorem mapM_option_mem {α β : Type} (f : α → Option β) :
    ∀ (l : List α) (l2 : List β), l.mapM f = some l2 →
    ∀ b ∈ l2, ∃ a ∈ l, f a = some b := by
  intro l
  induction l with
  | nil =>
      intro l2 h
      simp only [List.mapM_nil, pure, Option.some.injEq] at h
      simp [← h]
  | cons a as ih =>
      intro l2 h
      simp only [List.mapM_cons, bind, Option.bind_eq_some, pure,
        Option.some.injEq] at h
      rcases h with ⟨b, hb, bs, hbs, rfl⟩
      intro b2 hb2
      rcases List.mem_cons.mp hb2 with rfl | hmem
      · exact ⟨a, List.mem_cons_self _ _, hb⟩
      · rcases ih bs hbs b2 hmem with ⟨a2, ha2, hfa2⟩
        exact ⟨a2, List.mem_cons_of_mem _ ha2, hfa2⟩

theorem sum_map_const {α : Type} (K : Nat) :
    ∀ (l : List α) (f : α → List Nat), (∀ x ∈ l, (f x).length = K) →
    ((l.map f).map List.length).sum = K * l.length := by
  intro l
  induction l with
  | nil => intro f _; simp
  | cons a as ih =>
      intro f hf
      simp only [List.map_cons, List.sum_cons, ih f (fun x hx => hf x (List.mem_cons_of_mem _ hx)),
        hf a (List.mem_cons_self _ _)]
      simp [List.length_cons]
      ring

/-- Well-formedness of a DFA node relative to its automaton's dimensions. -/
def DFANode.WF (alphabetSize numStates acceptSetCount : Nat) (n : DFANode) : Prop :=
  n.transitions.length = alphabetSize ∧
  (∀ t ∈ n.transitions, t < numStates) ∧
  n.acceptSetID < acceptSetCount

/-- Well-formedness of a DFA: at least one state (state 0, the start state),
transition rows of the alphabet's width with in-range targets, and interned
accept-set IDs. -/
def DFA.WF (dfa : DFA) : Prop :=
  0 < dfa.nodes.length ∧
  ∀ n ∈ dfa.nodes, DFANode.WF dfa.alphabetSize dfa.nodes.length dfa.acceptSetMap.size n

instance (a b c : Nat) (n : DFANode) : Decidable (DFANode.WF a b c n) := by
  unfold DFANode.WF; infer_instance

instance (dfa : DFA) : Decidable dfa.WF := by
  unfold DFA.WF; infer_instance

theorem internFold_spec (nodes : List NFANode) :
    ∀ (ts : List ISet) (m : IDMap ISet (List Nat)) (acc : List Nat),
    m.size ≤ (ts.foldl (fun tr t =>
        ((getNodeID nodes tr.1 t).1, tr.2 ++ [(getNodeID nodes tr.1 t).2]))
        (m, acc)).1.size ∧
    (ts.foldl (fun tr t =>
        ((getNodeID nodes tr.1 t).1, tr.2 ++ [(getNodeID nodes tr.1 t).2]))
        (m, acc)).2.length = acc.length + ts.length ∧
    (∀ t ∈ (ts.foldl (fun tr t =>
        ((getNodeID nodes tr.1 t).1, tr.2 ++ [(getNodeID nodes tr.1 t).2]))
        (m, acc)).2, t ∈ acc ∨ t < (ts.foldl (fun tr t =>
        ((getNodeID nodes tr.1 t).1, tr.2 ++ [(getNodeID nodes tr.1 t).2]))
        (m, acc)).1.size) := by
  intro ts
  induction ts with
  | nil =>
      intro m acc
      refine ⟨le_refl _, by simp, fun t ht => Or.inl ht⟩
  | cons s ss ih =>
      intro m acc
      simp only [List.foldl_cons]
      rcases ih (getNodeID nodes m s).1 (acc ++ [(getNodeID nodes m s).2]) with ⟨h1, h2, h3⟩
      refine ⟨le_trans (IDMap.size_getOrCreateID m (closure nodes s)) h1, by simp [h2]; omega, ?_⟩
      intro t ht
      rcases h3 t ht with hmem | hlt
      · rcases List.mem_append.mp hmem with hacc | hnew
        · exact Or.inl hacc
        · refine Or.inr (lt_of_lt_of_le ?_ h1)
          rw [List.mem_singleton.mp hnew]
          exact IDMap.getOrCreateID_lt m (closure nodes s)
      · exact Or.inr hlt

theorem toDFAStep_spec (nfa : NFA) (i : Nat) (nfaStates : IDMap ISet (List Nat))
    (acceptSetMap : IDMap (List Nat) (List Nat)) (dfaNodes : List DFANode) :
    nfaStates.size ≤ (toDFAStep nfa i nfaStates acceptSetMap dfaNodes).1.size ∧
    acceptSetMap.size ≤ (toDFAStep nfa i nfaStates acceptSetMap dfaNodes).2.1.size ∧
    ∃ node, (toDFAStep nfa i nfaStates acceptSetMap dfaNodes).2.2 = dfaNodes ++ [node] ∧
      node.transitions.length = nfa.alphabetSize ∧
      (∀ t ∈ node.transitions, t < (toDFAStep nfa i nfaStates acceptSetMap dfaNodes).1.size) ∧
      node.acceptSetID < (toDFAStep nfa i nfaStates acceptSetMap dfaNodes).2.1.size := by
  unfold toDFAStep
  dsimp only
  set s := (nfaStates.getByID i).getD (ISet.empty 0) with hs
  set ta := s.toList.foldl
    (fun (ta : List ISet × List Nat) nfaNodeID =>
      let nfaNode := nfa.nodes.getD nfaNodeID default
      let ts := nfaNode.letters.foldl
        (fun ts letterID =>
          ts.set letterID ((ts.getD letterID (ISet.empty 0)).add nfaNode.nextID.toNat))
        ta.1
      (ts, ta.2 ++ nfaNode.acceptSet))
    ((List.range nfa.alphabetSize).map (fun _ => ISet.empty nfa.nodes.length), []) with hta
  have hta1 : ta.1.length = nfa.alphabetSize := by
    rw [hta]
    refine foldlPreserve (fun (p : List ISet × List Nat) => p.1.length = nfa.alphabetSize)
      _ ?_ _ _ (by simp)
    intro a b hab
    dsimp only
    refine foldlPreserve (fun (ts : List ISet) => ts.length = nfa.alphabetSize) _ ?_ _ _ hab
    intro ts c hts
    simpa using hts
  rcases internFold_spec nfa.nodes ta.1 nfaStates [] with ⟨h1, h2, h3⟩
  refine ⟨h1, IDMap.size_getOrCreateID _ _, _, rfl, ?_, ?_, IDMap.getOrCreateID_lt _ _⟩
  · dsimp only
    rw [h2]
    simpa using hta1
  · intro t ht
    rcases h3 t ht with hmem | hlt
    · simp at hmem
    · exact hlt

theorem toDFALoop_WF (nfa : NFA) :
    ∀ (fuel i : Nat) (nfaStates : IDMap ISet (List Nat))
      (acceptSetMap : IDMap (List Nat) (List Nat)) (dfaNodes : List DFANode) (dfa : DFA),
    toDFALoop nfa fuel i nfaStates acceptSetMap dfaNodes = some dfa →
    dfaNodes.length = i → i ≤ nfaStates.size →
    (∀ n ∈ dfaNodes, n.transitions.length = nfa.alphabetSize ∧
      (∀ t ∈ n.transitions, t < nfaStates.size) ∧ n.acceptSetID < acceptSetMap.size) →
    dfa.alphabetSize = nfa.alphabetSize ∧ dfa.acceptCount = nfa.acceptCount ∧
    nfaStates.size ≤ dfa.nodes.length ∧
    (∀ n ∈ dfa.nodes, DFANode.WF dfa.alphabetSize dfa.nodes.length dfa.acceptSetMap.size n) := by
  intro fuel
  induction fuel with
  | zero => intro i ns am dn dfa h; cases h
  | succ f ih =>
      intro i ns am dn dfa h hlen hle hinv
      unfold toDFALoop at h
      split at h
      · rename_i hlt
        rcases toDFAStep_spec nfa i ns am dn with ⟨hs1, hs2, node, hnode, hn1, hn2, hn3⟩
        dsimp only at h
        rw [hnode] at h
        have hres := ih (i + 1) _ _ _ dfa h (by simp [hlen]) (by omega) ?_
        · rcases hres with ⟨r1, r2, r3, r4⟩
          exact ⟨r1, r2, le_trans hs1 r3, r4⟩
        · intro n hn
          rcases List.mem_append.mp hn with hmem | hnew
          · rcases hinv n hmem with ⟨a1, a2, a3⟩
            exact ⟨a1, fun t ht => lt_of_lt_of_le (a2 t ht) hs1, lt_of_lt_of_le a3 hs2⟩
          · rw [List.mem_singleton.mp hnew]
            exact ⟨hn1, hn2, hn3⟩
      · rename_i hge
        cases h
        have hieq : i = ns.size := by omega
        refine ⟨rfl, rfl, by simp only; omega, ?_⟩
        intro n hn
        rcases hinv n hn with ⟨a1, a2, a3⟩
        exact ⟨a1, fun t ht => by simp only; rw [hlen, hieq]; exact a2 t ht, a3⟩

theorem NFA.toDFA_WF (nfa : NFA) (dfa : DFA) (h : nfa.toDFA = some dfa) :
    dfa.WF ∧ dfa.alphabetSize = nfa.alphabetSize ∧ dfa.acceptCount = nfa.acceptCount := by
  unfold NFA.toDFA at h
  dsimp only at h
  have h1 := toDFALoop_WF nfa _ 0 _ _ [] dfa h rfl
    (by
      have := IDMap.getOrCreateID_lt (IDMap.empty' (α := ISet) ISet.key)
        (closure nfa.nodes (ISet.of nfa.nodes.length [nfa.startID]))
      unfold getNodeID
      omega)
    (by intro n hn; cases hn)
  rcases h1 with ⟨ha, hc, hsz, hwf⟩
  have hpos : 0 < dfa.nodes.length := by
    have := IDMap.getOrCreateID_lt (IDMap.empty' (α := ISet) ISet.key)
      (closure nfa.nodes (ISet.of nfa.nodes.length [nfa.startID]))
    unfold getNodeID at hsz
    omega
  exact ⟨⟨hpos, hwf⟩, ha, hc⟩

theorem DFA.minimise_WF (dfa dfa2 : DFA) (hwf : dfa.WF) (h : dfa.minimise = some dfa2) :
    dfa2.WF ∧ dfa2.alphabetSize = dfa.alphabetSize ∧ dfa2.acceptCount = dfa.acceptCount ∧
    dfa2.acceptSetMap = dfa.acceptSetMap := by
  unfold DFA.minimise at h
  dsimp only at h
  split at h
  · cases h
  · cases h
    exact ⟨hwf, rfl, rfl, rfl⟩
  · rename_i p hloop
    split at h
    · cases h
    · rename_i repNodes hmap
      cases h
      rcases hwf with ⟨hpos, hnodes⟩
      constructor
      · constructor
        · have hlen := mapM_option_length _ _ _ hmap
          have : 0 < (((IDMap.empty' fun id => p.getRepresentative id).getOrCreateID 0).1).size := by
            have := IDMap.getOrCreateID_lt (IDMap.empty' (α := Nat) (fun id => p.getRepresentative id)) 0
            omega
          have hsz := IDMap.size_foldl_getOrCreateID p.representatives
            ((IDMap.empty' fun id => p.getRepresentative id).getOrCreateID 0).1
          simp only [IDMap.size] at this hsz
          simp only [hlen]
          omega
        · intro n hn
          rcases mapM_option_mem _ _ _ hmap n hn with ⟨rep, hrep, hfa⟩
          simp only [Option.bind_eq_some, Option.map_eq_some'] at hfa
          rcases hfa with ⟨node, hnode, transitions, htrans, rfl⟩
          rcases hnodes node (List.get?_mem hnode) with ⟨a1, a2, a3⟩
          refine ⟨?_, ?_, ?_⟩
          · simp only
            rw [mapM_option_length _ _ _ htrans, a1]
          · intro t ht
            rcases mapM_option_mem _ _ _ htrans t ht with ⟨src, _, hsrc⟩
            have := IDMap.getID_lt _ _ _ hsrc
            have hlen := mapM_option_length _ _ _ hmap
            simp only [IDMap.size] at this
            simp only [hlen]
            omega
          · exact a3
      · exact ⟨rfl, rfl, rfl⟩

theorem Regex.compile_WF (alphabetSize acceptCount : Nat) (r : Regex) (dfa : DFA)
    (h : Regex.compile alphabetSize acceptCount r = some dfa) :
    dfa.WF ∧ dfa.alphabetSize = alphabetSize ∧ dfa.acceptCount = acceptCount := by
  unfold Regex.compile at h
  rcases Option.bind_eq_some.mp h with ⟨dfa1, h1, h2⟩
  rcases NFA.toDFA_WF _ _ h1 with ⟨hwf1, ha1, hc1⟩
  rcases DFA.minimise_WF _ _ hwf1 h2 with ⟨hwf2, ha2, hc2, _⟩
  exact ⟨hwf2, by rw [ha2, ha1]; rfl, by rw [hc2, hc1]; rfl⟩

/-- The state invariant justified by construction and valid edits: both DFAs
well-formed, the size relations wired up by the `PatternMatcher`
constructor, and grid cells / row states / column states all in range. -/
def MatcherState.WF (ms : MatcherState) : Prop :=
  ms.matcher.rowDFA.WF ∧ ms.matcher.colDFA.WF ∧
  ms.grid.alphabet.size = ms.matcher.rowDFA.alphabetSize ∧
  ms.matcher.colDFA.alphabetSize = ms.matcher.rowDFA.acceptSetMap.size ∧
  ms.matcher.acceptSetMapSize = ms.matcher.colDFA.acceptSetMap.size ∧
  ms.matcher.acceptSetDiffs.length = ms.matcher.acceptSetMapSize * ms.matcher.acceptSetMapSize ∧
  ms.grid.grid.length = ms.grid.width * ms.grid.height ∧
  (∀ c ∈ ms.grid.grid, c < ms.matcher.rowDFA.alphabetSize) ∧
  ms.rowStates.length = ms.grid.width * ms.grid.height ∧
  (∀ s ∈ ms.rowStates, s < ms.matcher.rowDFA.size) ∧
  ms.colStates.length = ms.grid.width * ms.grid.height ∧
  (∀ s ∈ ms.colStates, s < ms.matcher.colDFA.size)

instance (ms : MatcherState) : Decidable ms.WF := by
  unfold MatcherState.WF
  infer_instance

theorem length_flatten_grid {α β : Type} (l : List α) (f : α → List β)
    (K : Nat) (hf : ∀ x ∈ l, (f x).length = K) :
    (l.map f).flatten.length = K * l.length := by
  induction l with
  | nil => simp
  | cons a as ih =>
      simp only [List.map_cons, List.flatten_cons, List.length_append,
        hf a (List.mem_cons_self _ _), ih (fun x hx => hf x (List.mem_cons_of_mem _ hx)),
        List.length_cons]
      ring

/-- The size relations established by the `PatternMatcher` constructor. -/
theorem PatternMatcher.make_WF (a : IDMap Char Char)
    (ps : IDMap Pattern (Nat × Nat × List Int)) (m : PatternMatcher)
    (hm : PatternMatcher.make a ps = some m) :
    m.rowDFA.WF ∧ m.colDFA.WF ∧ m.alphabet = a ∧
    m.rowDFA.alphabetSize = a.size ∧
    m.colDFA.alphabetSize = m.rowDFA.acceptSetMap.size ∧
    m.acceptSetMapSize = m.colDFA.acceptSetMap.size ∧
    m.acceptSetDiffs.length = m.acceptSetMapSize * m.acceptSetMapSize := by
  simp only [PatternMatcher.make, Option.bind_eq_some, Option.pure_def,
    Option.some.injEq, bind, Option.bind_eq_some] at hm
  obtain ⟨rowDFA, hrow, colAtoms, hatoms, colDFA, hcol, hm⟩ := hm
  subst hm
  rcases Regex.compile_WF _ _ _ _ hrow with ⟨hwfr, har, _⟩
  rcases Regex.compile_WF _ _ _ _ hcol with ⟨hwfc, hac, _⟩
  refine ⟨hwfr, hwfc, rfl, har, hac, rfl, ?_⟩
  simp only
  rw [length_flatten_grid _ _ colDFA.acceptSetMap.size (by
    intro q hq
    simp [IDMap.size])]
  simp [IDMap.size]

theorem getD_mem_of_lt {α : Type} {l : List α} {i : Nat} (h : i < l.length) (d : α) :
    l.getD i d ∈ l := by
  rw [List.getD_eq_getElem l d h]
  exact List.getElem_mem h

theorem DFA.go_ok (dfa : DFA) (hwf : dfa.WF) (state letter : Nat)
    (hs : state < dfa.nodes.length) (hl : letter < dfa.alphabetSize) :
    ∃ t, dfa.go state letter = some t ∧ t < dfa.nodes.length := by
  unfold DFA.go
  rw [if_pos ⟨hs, hl⟩]
  refine ⟨_, rfl, ?_⟩
  rcases hwf.2 _ (getD_mem_of_lt hs default) with ⟨a1, a2, _⟩
  exact a2 _ (getD_mem_of_lt (by omega) 0)

theorem DFA.getAcceptSetID_lt (dfa : DFA) (hwf : dfa.WF) (state : Nat)
    (hs : state < dfa.nodes.length) :
    dfa.getAcceptSetID state < dfa.acceptSetMap.size :=
  (hwf.2 _ (getD_mem_of_lt hs default)).2.2

theorem getAcceptSetDiff_ok (m : PatternMatcher)
    (hK : m.acceptSetMapSize = m.colDFA.acceptSetMap.size)
    (hdl : m.acceptSetDiffs.length = m.acceptSetMapSize * m.acceptSetMapSize)
    (hwfc : m.colDFA.WF)
    (p q : Nat) (hp : p < m.colDFA.nodes.length) (hq : q < m.colDFA.nodes.length) :
    ∃ d, m.getAcceptSetDiff p q = some d := by
  unfold PatternMatcher.getAcceptSetDiff
  have h1 : m.colDFA.getAcceptSetID p < m.acceptSetMapSize :=
    hK ▸ DFA.getAcceptSetID_lt _ hwfc _ hp
  have h2 : m.colDFA.getAcceptSetID q < m.acceptSetMapSize :=
    hK ▸ DFA.getAcceptSetID_lt _ hwfc _ hq
  have hidx : m.colDFA.getAcceptSetID p
      + m.acceptSetMapSize * m.colDFA.getAcceptSetID q < m.acceptSetDiffs.length := by
    rw [hdl]
    nlinarith
  cases hd : m.acceptSetDiffs.get? (m.colDFA.getAcceptSetID p
      + m.acceptSetMapSize * m.colDFA.getAcceptSetID q) with
  | none =>
      rw [List.get?_eq_none] at hd
      omega
  | some d => exact ⟨d, rfl⟩

theorem rowLoopX_ok (rowDFA : DFA) (g : Grid) (sx y : Nat)
    (hwf : rowDFA.WF)
    (hg : g.grid.length = g.width * g.height)
    (hcells : ∀ c ∈ g.grid, c < rowDFA.alphabetSize)
    (hy : y < g.height) :
    ∀ (xn : Nat), xn ≤ g.width → ∀ (state : Nat), state < rowDFA.nodes.length →
    ∀ (rs : List Nat) (mcx : Nat), (∀ s ∈ rs, s < rowDFA.nodes.length) →
    ∃ rs2 mcx2, MatcherState.rowLoopX rowDFA g sx y xn state (rs, mcx) = .ok (rs2, mcx2) ∧
      (∀ s ∈ rs2, s < rowDFA.nodes.length) ∧ rs2.length = rs.length := by
  intro xn
  induction xn with
  | zero =>
      intro _ state _ rs mcx hrs
      exact ⟨rs, mcx, rfl, hrs, rfl⟩
  | succ xp ih =>
      intro hxn state hstate rs mcx hrs
      unfold MatcherState.rowLoopX
      dsimp only
      rw [Grid.index, if_pos ⟨by omega, hy⟩]
      dsimp only
      have hidx : xp + y * g.width < g.grid.length := by
        rw [hg]
        calc xp + y * g.width < g.width + y * g.width := by omega
        _ = (y + 1) * g.width := by ring
        _ ≤ g.height * g.width := Nat.mul_le_mul_right _ (by omega)
        _ = g.width * g.height := Nat.mul_comm _ _
      have hletter : g.grid.getD (xp + y * g.width) rowDFA.alphabetSize < rowDFA.alphabetSize :=
        hcells _ (getD_mem_of_lt hidx _)
      rcases DFA.go_ok rowDFA hwf state _ hstate hletter with ⟨t, hgo, ht⟩
      rw [hgo]
      dsimp only
      by_cases hb : t ≠ rs.getD (xp + y * g.width) 0
      · rw [if_pos hb]
        rcases ih (by omega) t ht (rs.set (xp + y * g.width) t) (min mcx xp)
          (fun s hs => by
            rcases List.mem_or_eq_of_mem_set hs with hmem | rfl
            · exact hrs s hmem
            · exact ht) with ⟨rs2, mcx2, hok, hb2, hl2⟩
        exact ⟨rs2, mcx2, hok, hb2, by simpa using hl2⟩
      · rw [if_neg hb]
        by_cases hx : xp < sx
        · rw [if_pos hx]
          exact ⟨rs, mcx, rfl, hrs, rfl⟩
        · rw [if_neg hx]
          exact ih (by omega) t ht rs mcx hrs

theorem rowLoopY_ok (rowDFA : DFA) (g : Grid) (sx endX : Nat)
    (hwf : rowDFA.WF)
    (hg : g.grid.length = g.width * g.height)
    (hcells : ∀ c ∈ g.grid, c < rowDFA.alphabetSize)
    (hendX : endX ≤ g.width) :
    ∀ (ys : List Nat), (∀ y ∈ ys, y < g.height) →
    ∀ (rs : List Nat) (mcx : Nat), (∀ s ∈ rs, s < rowDFA.nodes.length) →
    rs.length = g.width * g.height →
    ∃ rs2 mcx2, MatcherState.rowLoopY rowDFA g sx endX ys (rs, mcx) = .ok (rs2, mcx2) ∧
      (∀ s ∈ rs2, s < rowDFA.nodes.length) ∧ rs2.length = rs.length := by
  intro ys
  induction ys with
  | nil =>
      intro _ rs mcx hrs _
      exact ⟨rs, mcx, rfl, hrs, rfl⟩
  | cons y ys ih =>
      intro hys rs mcx hrs hlen
      unfold MatcherState.rowLoopY
      dsimp only
      have hstate0 : ∃ s0, (if endX = g.width then Except.ok 0
          else (g.index endX y).map (fun i => rs.getD i 0))
            = (Except.ok s0 : Except Err Nat) ∧ s0 < rowDFA.nodes.length := by
        by_cases he : endX = g.width
        · exact ⟨0, by rw [if_pos he], hwf.1⟩
        · rw [if_neg he, Grid.index, if_pos ⟨by omega, hys y (List.mem_cons_self _ _)⟩]
          refine ⟨_, rfl, ?_⟩
          refine hrs _ (getD_mem_of_lt ?_ 0)
          rw [hlen]
          have hy : y < g.height := hys y (List.mem_cons_self _ _)
          calc endX + y * g.width < g.width + y * g.width := by omega
          _ = (y + 1) * g.width := by ring
          _ ≤ g.height * g.width := Nat.mul_le_mul_right _ (by omega)
          _ = g.width * g.height := Nat.mul_comm _ _
      rcases hstate0 with ⟨s0, hs0, hs0lt⟩
      rw [hs0]
      dsimp only
      rcases rowLoopX_ok rowDFA g sx y hwf hg hcells (hys y (List.mem_cons_self _ _))
        endX hendX s0 hs0lt rs mcx hrs with ⟨rs1, mcx1, hok, hb1, hl1⟩
      rw [hok]
      rcases ih (fun y2 hy2 => hys y2 (List.mem_cons_of_mem _ hy2)) rs1 mcx1 hb1
        (hl1.trans hlen) with ⟨rs2, mcx2, hok2, hb2, hl2⟩
      exact ⟨rs2, mcx2, hok2, hb2, hl2.trans hl1⟩

theorem colLoopY_ok (m : PatternMatcher) (g : Grid) (rowStates : List Nat) (sy x : Nat)
    (hwfr : m.rowDFA.WF) (hwfc : m.colDFA.WF)
    (halpha : m.colDFA.alphabetSize = m.rowDFA.acceptSetMap.size)
    (hK : m.acceptSetMapSize = m.colDFA.acceptSetMap.size)
    (hdl : m.acceptSetDiffs.length = m.acceptSetMapSize * m.acceptSetMapSize)
    (hrs : ∀ s ∈ rowStates, s < m.rowDFA.nodes.length)
    (hrslen : rowStates.length = g.width * g.height)
    (hx : x < g.width) :
    ∀ (yn : Nat), yn ≤ g.height → ∀ (state : Nat), state < m.colDFA.nodes.length →
    ∀ (cs : List Nat) (mi : List SampleableSet),
    (∀ s ∈ cs, s < m.colDFA.nodes.length) → cs.length = g.width * g.height →
    ∃ cs2 mi2, MatcherState.colLoopY m g rowStates sy x yn state (cs, mi) = .ok (cs2, mi2) ∧
      (∀ s ∈ cs2, s < m.colDFA.nodes.length) ∧ cs2.length = cs.length := by
  intro yn
  induction yn with
  | zero =>
      intro _ state _ cs mi hcs _
      exact ⟨cs, mi, rfl, hcs, rfl⟩
  | succ yp ih =>
      intro hyn state hstate cs mi hcs hcslen
      unfold MatcherState.colLoopY
      dsimp only
      rw [Grid.index, if_pos ⟨hx, by omega⟩]
      dsimp only
      have hidx : x + yp * g.width < g.width * g.height := by
        calc x + yp * g.width < g.width + yp * g.width := by omega
        _ = (yp + 1) * g.width := by ring
        _ ≤ g.height * g.width := Nat.mul_le_mul_right _ (by omega)
        _ = g.width * g.height := Nat.mul_comm _ _
      have hletter : m.rowDFA.getAcceptSetID (rowStates.getD (x + yp * g.width) 0)
          < m.colDFA.alphabetSize := by
        rw [halpha]
        exact DFA.getAcceptSetID_lt _ hwfr _ (hrs _ (getD_mem_of_lt (by omega) 0))
      rcases DFA.go_ok m.colDFA hwfc state _ hstate hletter with ⟨t, hgo, ht⟩
      rw [hgo]
      dsimp only
      by_cases hb : t ≠ cs.getD (x + yp * g.width) 0
      · rw [if_pos hb]
        have hold : cs.getD (x + yp * g.width) 0 < m.colDFA.nodes.length :=
          hcs _ (getD_mem_of_lt (by omega) 0)
        rcases getAcceptSetDiff_ok m hK hdl hwfc _ t hold ht with ⟨d1, hd1⟩
        rw [hd1]
        dsimp only
        rcases getAcceptSetDiff_ok m hK hdl hwfc t _ ht hold with ⟨d2, hd2⟩
        rw [hd2]
        dsimp only
        rcases ih (by omega) t ht (cs.set (x + yp * g.width) t) _
          (fun s hs => by
            rcases List.mem_or_eq_of_mem_set hs with hmem | rfl
            · exact hcs s hmem
            · exact ht)
          (by simpa using hcslen) with ⟨cs2, mi2, hok, hb2, hl2⟩
        exact ⟨cs2, mi2, hok, hb2, by simpa using hl2⟩
      · rw [if_neg hb]
        by_cases hy : yp < sy
        · rw [if_pos hy]
          exact ⟨cs, mi, rfl, hcs, rfl⟩
        · rw [if_neg hy]
          exact ih (by omega) t ht cs mi hcs hcslen

theorem colLoopX_ok (m : PatternMatcher) (g : Grid) (rowStates : List Nat) (sy endY : Nat)
    (hwfr : m.rowDFA.WF) (hwfc : m.colDFA.WF)
    (halpha : m.colDFA.alphabetSize = m.rowDFA.acceptSetMap.size)
    (hK : m.acceptSetMapSize = m.colDFA.acceptSetMap.size)
    (hdl : m.acceptSetDiffs.length = m.acceptSetMapSize * m.acceptSetMapSize)
    (hrs : ∀ s ∈ rowStates, s < m.rowDFA.nodes.length)
    (hrslen : rowStates.length = g.width * g.height)
    (hendY : endY ≤ g.height) :
    ∀ (xs : List Nat), (∀ x ∈ xs, x < g.width) →
    ∀ (cs : List Nat) (mi : List SampleableSet),
    (∀ s ∈ cs, s < m.colDFA.nodes.length) → cs.length = g.width * g.height →
    ∃ cs2 mi2, MatcherState.colLoopX m g rowStates sy endY xs (cs, mi) = .ok (cs2, mi2) ∧
      (∀ s ∈ cs2, s < m.colDFA.nodes.length) ∧ cs2.length = cs.length := by
  intro xs
  induction xs with
  | nil =>
      intro _ cs mi hcs _
      exact ⟨cs, mi, rfl, hcs, rfl⟩
  | cons x xs ih =>
      intro hxs cs mi hcs hcslen
      unfold MatcherState.colLoopX
      dsimp only
      have hstate0 : ∃ s0, (if endY = g.height then Except.ok 0
          else (g.index x endY).map (fun i => cs.getD i 0))
            = (Except.ok s0 : Except Err Nat) ∧ s0 < m.colDFA.nodes.length := by
        by_cases he : endY = g.height
        · exact ⟨0, by rw [if_pos he], hwfc.1⟩
        · rw [if_neg he, Grid.index, if_pos ⟨hxs x (List.mem_cons_self _ _), by omega⟩]
          refine ⟨_, rfl, ?_⟩
          refine hcs _ (getD_mem_of_lt ?_ 0)
          rw [hcslen]
          have hx : x < g.width := hxs x (List.mem_cons_self _ _)
          calc x + endY * g.width < g.width + endY * g.width := by omega
          _ = (endY + 1) * g.width := by ring
          _ ≤ g.height * g.width := Nat.mul_le_mul_right _ (by omega)
          _ = g.width * g.height := Nat.mul_comm _ _
      rcases hstate0 with ⟨s0, hs0, hs0lt⟩
      rw [hs0]
      dsimp only
      rcases colLoopY_ok m g rowStates sy x hwfr hwfc halpha hK hdl hrs hrslen
        (hxs x (List.mem_cons_self _ _)) endY hendY s0 hs0lt cs mi hcs hcslen with
        ⟨cs1, mi1, hok, hb1, hl1⟩
      rw [hok]
      rcases ih (fun x2 hx2 => hxs x2 (List.mem_cons_of_mem _ hx2)) cs1 mi1 hb1
        (hl1.trans hcslen) with ⟨cs2, mi2, hok2, hb2, hl2⟩
      exact ⟨cs2, mi2, hok2, hb2, hl2.trans hl1⟩

/-- `recompute` with a clamped rectangle on a well-formed state always
succeeds and preserves the invariant. -/
theorem recompute_ok (ms : MatcherState) (hwf : ms.WF)
    (startX startY endX endY : Nat)
    (hex : endX ≤ ms.grid.width) (hey : endY ≤ ms.grid.height) :
    ∃ ms2, ms.recompute startX startY endX endY = .ok ms2 ∧ ms2.WF ∧
      ms2.grid = ms.grid ∧ ms2.matcher = ms.matcher := by
  obtain ⟨hwfr, hwfc, halpha, hca, hK, hdl, hglen, hcells, hrslen, hrsb, hcslen, hcsb⟩ := hwf
  unfold MatcherState.recompute
  rcases rowLoopY_ok ms.matcher.rowDFA ms.grid startX endX hwfr hglen hcells hex
    (List.range' startY (endY - startY))
    (fun y hy => by
      rcases List.mem_range'_1.mp hy with ⟨h1, h2⟩
      omega)
    ms.rowStates startX hrsb hrslen with ⟨rs2, mcx2, hok1, hb1, hl1⟩
  rw [hok1]
  dsimp only
  rcases colLoopX_ok ms.matcher ms.grid rs2 startY endY hwfr hwfc hca hK hdl hb1
    (hl1.trans hrslen) hey
    (List.range' mcx2 (endX - mcx2))
    (fun x hx => by
      rcases List.mem_range'_1.mp hx with ⟨h1, h2⟩
      omega)
    ms.colStates ms.matchIndices hcsb hcslen with ⟨cs2, mi2, hok2, hb2, hl2⟩
  rw [hok2]
  refine ⟨_, rfl, ?_, rfl, rfl⟩
  exact ⟨hwfr, hwfc, halpha, hca, hK, hdl, hglen, hcells,
    hl1.trans hrslen, hb1, hl2.trans hcslen, hb2⟩

/-- A fresh `MatcherState` is well-formed, and `makeState` (which runs a
full `recompute`) succeeds, for a matcher built over a nonempty alphabet. -/
theorem makeState_WF (a : IDMap Char Char) (ps : IDMap Pattern (Nat × Nat × List Int))
    (m : PatternMatcher) (hm : PatternMatcher.make a ps = some m)
    (ha : 0 < a.size) (width height : Nat) :
    ∃ ms, m.makeState width height = .ok ms ∧ ms.WF := by
  rcases PatternMatcher.make_WF a ps m hm with ⟨hwfr, hwfc, halpha, hras, hca, hK, hdl⟩
  have hwf0 : (MatcherState.initial m width height).WF := by
    refine ⟨hwfr, hwfc, ?_, hca, hK, hdl, by simp [MatcherState.initial, Grid.make],
      ?_, by simp [MatcherState.initial, Grid.make], ?_,
      by simp [MatcherState.initial, Grid.make], ?_⟩
    · simp [MatcherState.initial, Grid.make, halpha, hras]
    · intro c hc
      rw [List.eq_of_mem_replicate hc]
      show 0 < m.rowDFA.alphabetSize
      rw [hras]
      exact ha
    · intro s hs
      rw [List.eq_of_mem_replicate hs]
      exact hwfr.1
    · intro s hs
      rw [List.eq_of_mem_replicate hs]
      exact hwfc.1
  rcases recompute_ok _ hwf0 0 0 width height
    (by simp [MatcherState.initial, Grid.make])
    (by simp [MatcherState.initial, Grid.make]) with ⟨ms, hok, hwf2, _, _⟩
  exact ⟨ms, hok, hwf2⟩

/-- A `grid.set` with an in-bounds coordinate and an alphabet symbol
succeeds and preserves the invariant. -/
theorem set_WF (ms : MatcherState) (hwf : ms.WF) (x y : Nat) (value : Char)
    (hx : x < ms.grid.width) (hy : y < ms.grid.height)
    (v : Nat) (hv : ms.grid.alphabet.getID value = some v) :
    ∃ ms2, ms.set x y value = .ok ms2 ∧ ms2.WF := by
  obtain ⟨hwfr, hwfc, halpha, hca, hK, hdl, hglen, hcells, hrslen, hrsb, hcslen, hcsb⟩ := hwf
  unfold MatcherState.set Grid.set
  rw [Grid.index, if_pos ⟨hx, hy⟩]
  dsimp only
  rw [hv]
  dsimp only
  have hvlt : v < ms.matcher.rowDFA.alphabetSize :=
    halpha ▸ IDMap.getID_lt _ _ _ hv
  have hwf2 : ({ ms with grid :=
      { ms.grid with grid := ms.grid.grid.set (x + y * ms.grid.width) v } }
        : MatcherState).WF := by
    refine ⟨hwfr, hwfc, halpha, hca, hK, hdl, by simpa using hglen, ?_,
      hrslen, hrsb, hcslen, hcsb⟩
    intro c hc
    rcases List.mem_or_eq_of_mem_set hc with hmem | rfl
    · exact hcells c hmem
    · exact hvlt
  rcases recompute_ok _ hwf2 x y (x + 1) (y + 1) (by simpa using hx)
    (by simpa using hy) with ⟨ms2, hok, hwf3, _, _⟩
  rw [hok]
  exact ⟨ms2, rfl, hwf3⟩

/-- The `setPattern` write loop succeeds when all target cells are inside
the grid, and keeps cell values in range when the written symbols are. -/
theorem setPatternLoop_ok (abSize : Nat) :
    ∀ (ts : List (Int × Int × Int)) (g : Grid) (x y : Nat),
    (∀ t ∈ ts, x + t.1.toNat < g.width ∧ y + t.2.1.toNat < g.height ∧
      t.2.2.toNat < abSize) →
    (∀ c ∈ g.grid, c < abSize) →
    ∃ g2, Grid.setPatternLoop g x y ts = .ok g2 ∧
      g2.alphabet = g.alphabet ∧ g2.width = g.width ∧ g2.height = g.height ∧
      g2.grid.length = g.grid.length ∧ (∀ c ∈ g2.grid, c < abSize) := by
  intro ts
  induction ts with
  | nil =>
      intro g x y _ hcells
      exact ⟨g, rfl, rfl, rfl, rfl, rfl, hcells⟩
  | cons t rest ih =>
      intro g x y hts hcells
      obtain ⟨dx, dy, c⟩ := t
      obtain ⟨h1, h2, h3⟩ := hts _ (List.mem_cons_self _ _)
      unfold Grid.setPatternLoop Grid.index
      rw [if_pos ⟨h1, h2⟩]
      rcases ih { g with grid := g.grid.set (x + dx.toNat + (y + dy.toNat) * g.width) c.toNat }
        x y (fun t2 ht2 => hts t2 (List.mem_cons_of_mem _ ht2))
        (fun c2 hc2 => by
          rcases List.mem_or_eq_of_mem_set hc2 with hmem | rfl
          · exact hcells c2 hmem
          · exact h3) with ⟨g2, hok, ha, hw, hh, hl, hc⟩
      exact ⟨g2, hok, ha, hw, hh, by simpa using hl, hc⟩

/-- A `setPattern` whose write plan stays inside the grid, writes alphabet
symbols, and whose bounding box fits, succeeds and preserves the
invariant. -/
theorem setPattern_WF (ms : MatcherState) (hwf : ms.WF) (x y : Nat) (p : Pattern)
    (hts : ∀ t ∈ Grid.vectorTriples p.vectorData,
      x + t.1.toNat < ms.grid.width ∧ y + t.2.1.toNat < ms.grid.height ∧
      t.2.2.toNat < ms.matcher.rowDFA.alphabetSize)
    (hbx : x + p.maxX ≤ ms.grid.width) (hby : y + p.maxY ≤ ms.grid.height) :
    ∃ ms2, ms.setPattern x y p = .ok ms2 ∧ ms2.WF := by
  obtain ⟨hwfr, hwfc, halpha, hca, hK, hdl, hglen, hcells, hrslen, hrsb, hcslen, hcsb⟩ := hwf
  unfold MatcherState.setPattern Grid.setPattern
  rcases setPatternLoop_ok ms.matcher.rowDFA.alphabetSize
    (Grid.vectorTriples p.vectorData) ms.grid x y hts hcells with
    ⟨g2, hok, ha, hw, hh, hl, hc⟩
  rw [hok]
  dsimp only
  have hwf2 : ({ ms with grid := g2 } : MatcherState).WF := by
    refine ⟨hwfr, hwfc, by rw [ha]; exact halpha, hca, hK, hdl,
      by rw [hw, hh]; exact hl.trans hglen, hc,
      by rw [hw, hh]; exact hrslen, hrsb, by rw [hw, hh]; exact hcslen, hcsb⟩
  rcases recompute_ok _ hwf2 (x + p.minX) (y + p.minY) (x + p.maxX) (y + p.maxY)
    (by rw [hw]; exact hbx) (by rw [hh]; exact hby) with ⟨ms2, hok2, hwf3, _, _⟩
  rw [hok2]
  exact ⟨ms2, rfl, hwf3⟩

/-- C10: on a well-formed `MatcherState` — the invariant established by
`makeState` (see `makeState_WF`) and preserved by in-bounds `set` and
`setPattern` edits with alphabet symbols (see `set_WF`, `setPattern_WF`) —
every `rowDFA.go` and `colDFA.go` call inside `recompute` receives a state
below the DFA's size and a letter below its alphabet size (cell values are
below `rowDFA.alphabetSize`, and the letters fed to `colDFA` are rowDFA
accept-set IDs, below `colDFA.alphabetSize = |rowDFA.acceptSetMap|`), so
the `DFA.go` error branch is unreachable and `recompute` never throws:
it returns a well-formed state. -/
theorem recompute_never_throws (ms : MatcherState) (hwf : ms.WF)
    (startX startY endX endY : Nat)
    (hex : endX ≤ ms.grid.width) (hey : endY ≤ ms.grid.height) :
    ∃ ms2, ms.recompute startX startY endX endY = .ok ms2 ∧ ms2.WF :=
  match recompute_ok ms hwf startX startY endX endY hex hey with
  | ⟨ms2, h1, h2, _, _⟩ => ⟨ms2, h1, h2⟩

/-- C10 (witness): `recompute` over the full 2×1 grid of a concrete
well-formed state. -/
theorem recompute_never_throws_witness :
    ∃ ms2, stateAB.recompute 0 0 stateAB.grid.width stateAB.grid.height
      = .ok ms2 ∧ ms2.WF :=
  recompute_never_throws stateAB (by decide) 0 0
    stateAB.grid.width stateAB.grid.height (le_refl _) (le_refl _)

end PM2D
